import Mathlib

/-!
Verification of the multilingual sentiment-analysis pipeline.

This file gives a shallow embedding, in Lean 4, of the text-analysis core of
the repository (the Ollama model gateway, the tokenization normalizer, the
chunker, and the optimized batch orchestrator), translated from the Python
sources under `app/services/`, and proves or refutes the frozen claims
about that code.

Modelling conventions:
* Python `str` is modelled as Lean `String` / `List Char`; all character
  predicates (whitespace, lower-casing) cover the ASCII range that the
  relevant inputs use.
* Python `float` is modelled as `ℚ` (exact rational semantics of the
  numeric literals involved; none of the settled claims depends on binary
  floating-point rounding).
* Python `dict` (insertion-ordered, unique keys) is modelled as an
  association list in insertion order; updating an existing key keeps its
  position, inserting a fresh key appends.
* Remote-model calls (`ollama.Client.chat`) are modelled by explicit
  oracles passed as arguments; an oracle answer models either a raised
  exception or a returned response object.
-/

/-- `SentimentLabel` from `app/models/review_models.py`. -/
inductive SentimentLabel : Type
  | POSITIVE
  | NEGATIVE
  | NEUTRAL
deriving DecidableEq, Repr

/-- A sentiment outcome: `(SentimentLabel, confidence)` with `ℚ` confidence. -/
abbrev SentimentOutcome := SentimentLabel × ℚ

/-! ### Python string primitives -/

/-- Python's notion of (ASCII) whitespace, as used by `str.split`/`str.strip`. -/
def pyIsSpace (c : Char) : Bool :=
  c == ' ' || c == '\t' || c == '\n' || c == '\r' ||
  c == Char.ofNat 11 || c == Char.ofNat 12

/-- Python `str.strip()` on a character list. -/
def pyStrip (l : List Char) : List Char :=
  ((l.dropWhile pyIsSpace).reverse.dropWhile pyIsSpace).reverse

/-- Auxiliary scanner for `pySplitWs`. -/
def pySplitWsAux : List Char → List Char → List (List Char)
  | [], acc => if acc.isEmpty then [] else [acc.reverse]
  | c :: rest, acc =>
    if pyIsSpace c then
      if acc.isEmpty then pySplitWsAux rest []
      else acc.reverse :: pySplitWsAux rest []
    else pySplitWsAux rest (c :: acc)

/-- Python `str.split()` with no argument: split on whitespace runs,
producing no empty parts. -/
def pySplitWs (l : List Char) : List (List Char) := pySplitWsAux l []

/-- Python `sep.join(parts)`. -/
def joinSep (sep : List Char) : List (List Char) → List Char
  | [] => []
  | [x] => x
  | x :: y :: rest => x ++ sep ++ joinSep sep (y :: rest)

/-- Python `str.lower()` (ASCII range). -/
def pyLower (l : List Char) : List Char := l.map Char.toLower

/-- Python substring test `needle in haystack`. -/
def containsSub (needle : List Char) : List Char → Bool
  | [] => needle.isEmpty
  | c :: rest => needle.isPrefixOf (c :: rest) || containsSub needle rest

/-- Fuel-driven scanner behind `replaceSub`.  Every step consumes at least
one input character, so fuel equal to the input length suffices; the fuel
only makes the recursion structural (kernel-reducible) and never runs out
on the initial call. -/
def replaceSubFuel (pat repl : List Char) : Nat → List Char → List Char
  | 0, s => s
  | _, [] => []
  | fuel + 1, c :: rest =>
    if pat.isPrefixOf (c :: rest) && !pat.isEmpty then
      repl ++ replaceSubFuel pat repl fuel (rest.drop (pat.length - 1))
    else
      c :: replaceSubFuel pat repl fuel rest

/-- Python `str.replace(pat, repl)`: replace every non-overlapping
occurrence, scanning left to right.  (All patterns used by the sources are
non-empty; an empty pattern is treated as the identity.) -/
def replaceSub (pat repl : List Char) (s : List Char) : List Char :=
  replaceSubFuel pat repl s.length s

/-! ### The result caches (`dict` in insertion order) -/

/-- An insertion-ordered string-keyed map, as Python's `dict`. -/
abbrev PyDict (α : Type) := List (String × α)

/-- `d[k]`, returning `none` on a missing key. -/
def dictLookup (k : String) (d : PyDict α) : Option α :=
  (d.find? (fun p => p.1 == k)).map Prod.snd

/-- `d[k] = v`: updating an existing key keeps its position (Python dict
semantics); a fresh key is appended at the end of the insertion order. -/
def dictInsert (k : String) (v : α) (d : PyDict α) : PyDict α :=
  if d.any (fun p => p.1 == k) then
    d.map (fun p => if p.1 == k then (k, v) else p)
  else
    d ++ [(k, v)]

/-- `OllamaService._manage_cache_size` (ollama_service.py lines 43-50):
when the cache has reached `maxSize` entries, delete the oldest
`maxSize // 10` keys in insertion order. -/
def manageCacheSize (maxSize : Nat) (d : PyDict α) : PyDict α :=
  if maxSize ≤ d.length then d.drop (maxSize / 10) else d

/-- The configured bound: `self.max_cache_size = 1000` in
`OllamaService.__init__`. -/
def ollamaMaxCacheSize : Nat := 1000

/-! ### The heuristic fallback classifier -/

/-- The fixed positive-word list of `OllamaService._fallback_sentiment`. -/
def positiveWords : List String :=
  ["good", "great", "excellent", "amazing", "love", "perfect", "wonderful", "fantastic"]

/-- The fixed negative-word list of `OllamaService._fallback_sentiment`. -/
def negativeWords : List String :=
  ["bad", "terrible", "awful", "hate", "horrible", "worst", "disappointing"]

/-- Decimal-literal values of the `mkRat` constants used in definitions
(the definitions use `mkRat` so that concrete runs reduce inside the
kernel; the literals of the Python source are recovered by these
equations). -/
theorem mkRat_decimal_eqs :
    mkRat 1 2 = (0.5 : ℚ) ∧ mkRat 6 10 = (0.6 : ℚ) ∧ mkRat 65 100 = (0.65 : ℚ) ∧
    mkRat 7 10 = (0.7 : ℚ) ∧ mkRat 75 100 = (0.75 : ℚ) ∧ mkRat 9 10 = (0.9 : ℚ) ∧
    mkRat 19 20 = (0.95 : ℚ) ∧ mkRat 0 1 = (0 : ℚ) := by
  refine ⟨?_, ?_, ?_, ?_, ?_, ?_, ?_, ?_⟩ <;> rw [Rat.mkRat_eq_div] <;> norm_num

/-- `OllamaService._fallback_sentiment` (ollama_service.py lines 517-533):
lower-case the text, count which listed words occur as substrings, and
decide by majority with fixed confidences (`mkRat 7 10` = the source's
`0.7`, `mkRat 6 10` = `0.6`). -/
def fallbackSentiment (text : String) : SentimentOutcome :=
  let textLower := pyLower text.data
  let positiveCount := (positiveWords.filter (fun w => containsSub w.data textLower)).length
  let negativeCount := (negativeWords.filter (fun w => containsSub w.data textLower)).length
  if positiveCount > negativeCount then (SentimentLabel.POSITIVE, mkRat 7 10)
  else if negativeCount > positiveCount then (SentimentLabel.NEGATIVE, mkRat 7 10)
  else (SentimentLabel.NEUTRAL, mkRat 6 10)

/-- Spec-side count: how many words of the fixed positive list occur
(case-insensitively, as substrings) in `text`. -/
def positiveKeywordCount (text : String) : Nat :=
  positiveWords.countP (fun w => containsSub w.data (pyLower text.data))

/-- Spec-side count for the fixed negative list. -/
def negativeKeywordCount (text : String) : Nat :=
  negativeWords.countP (fun w => containsSub w.data (pyLower text.data))

/-- C5: the heuristic fallback classifier is a total function that counts
case-insensitive substring hits of the fixed positive-word list against the
fixed negative-word list and decides by majority: Positive with confidence
0.7 on a positive majority, Negative with 0.7 on a negative majority,
Neutral with 0.6 on a tie; and on the concrete input
"I absolutely love this! Best purchase ever." it returns Positive, 0.7. -/
theorem c5_fallback_keyword_majority :
    (∀ text : String,
      fallbackSentiment text =
        if negativeKeywordCount text < positiveKeywordCount text then
          (SentimentLabel.POSITIVE, (0.7 : ℚ))
        else if positiveKeywordCount text < negativeKeywordCount text then
          (SentimentLabel.NEGATIVE, (0.7 : ℚ))
        else (SentimentLabel.NEUTRAL, (0.6 : ℚ)))
    ∧ fallbackSentiment "I absolutely love this! Best purchase ever."
        = (SentimentLabel.POSITIVE, 0.7) := by
  have hmain : ∀ text : String,
      fallbackSentiment text =
        if negativeKeywordCount text < positiveKeywordCount text then
          (SentimentLabel.POSITIVE, (0.7 : ℚ))
        else if positiveKeywordCount text < negativeKeywordCount text then
          (SentimentLabel.NEGATIVE, (0.7 : ℚ))
        else (SentimentLabel.NEUTRAL, (0.6 : ℚ)) := by
    intro text
    rw [show (0.7 : ℚ) = mkRat 7 10 from mkRat_decimal_eqs.2.2.2.1.symm,
      show (0.6 : ℚ) = mkRat 6 10 from mkRat_decimal_eqs.2.1.symm]
    simp only [fallbackSentiment, positiveKeywordCount, negativeKeywordCount,
      List.countP_eq_length_filter, gt_iff_lt]
  refine ⟨hmain, ?_⟩
  rw [hmain,
    if_pos (by decide :
      negativeKeywordCount "I absolutely love this! Best purchase ever."
        < positiveKeywordCount "I absolutely love this! Best purchase ever.")]

/-! ### The chunking service (`app/services/chunking_service.py`) -/

/-- Default `chunk_size` of `ChunkingService.__init__`. -/
def chunkServiceChunkSize : Nat := 1000

/-- Default `overlap` of `ChunkingService.__init__`. -/
def chunkServiceOverlap : Nat := 50

/-- `self.min_chunk_size = 50` (minimum viable chunk size). -/
def minChunkSize : Nat := 50

/-- Helper: `dropWhile` never lengthens a list. -/
theorem dropWhile_length_le (p : Char → Bool) (l : List Char) :
    (l.dropWhile p).length ≤ l.length :=
  (List.dropWhile_sublist _).length_le

/-- Scanner behind `collapseWs`; the flag records whether the previous
character belonged to a whitespace run already emitted as one space. -/
def collapseWsAux : Bool → List Char → List Char
  | _, [] => []
  | prevSpace, c :: rest =>
    if pyIsSpace c then
      if prevSpace then collapseWsAux true rest
      else ' ' :: collapseWsAux true rest
    else c :: collapseWsAux false rest

/-- `re.sub(r'\s+', ' ', text)`: collapse every whitespace run to a single
space (including leading/trailing runs; `_clean_text` strips afterwards). -/
def collapseWs (l : List Char) : List Char := collapseWsAux false l

/-- `text.encode('ascii', 'ignore').decode('ascii', 'ignore')`: drop every
non-ASCII character. -/
def asciiFilter (l : List Char) : List Char := l.filter (fun c => c.toNat ≤ 127)

/-- `ChunkingService._clean_text`. -/
def cleanText (l : List Char) : List Char := pyStrip (asciiFilter (collapseWs l))

/-- Scanner realising
`re.split(r'(?<=[.!?])\s+(?=[A-Z])|(?<=[.!?])$', text)`: split after a
terminal-punctuation character followed by a whitespace run whose first
following character is an ASCII uppercase letter (the run is consumed), and
emit one trailing empty part when the text ends right after terminal
punctuation.  (`$` is modelled as end of string; `_clean_text` output, the
only input at this call site, contains no newline.)  `prev` is the last
character already consumed, `acc` the current part reversed.  Fuel equal to
the remaining length plus one makes the recursion structural; every step
consumes at least one character, so the fuel never runs out on the initial
call (the fuel-exhausted clause closes the final part like the end of
input). -/
def splitSentAux (prev : Option Char) (acc : List Char) : Nat → List Char → List (List Char)
  | _, [] =>
    if (prev.map (fun p => p == '.' || p == '!' || p == '?')).getD false then
      [acc.reverse, []]
    else [acc.reverse]
  | 0, _ => [acc.reverse]
  | fuel + 1, c :: rest =>
    if pyIsSpace c
        && (prev.map (fun p => p == '.' || p == '!' || p == '?')).getD false
        && ((rest.dropWhile pyIsSpace).head?.map Char.isUpper).getD false then
      acc.reverse :: splitSentAux (some ((c :: rest).takeWhile pyIsSpace).getLast!) [] fuel
        (rest.dropWhile pyIsSpace)
    else
      splitSentAux (some c) (c :: acc) fuel rest

/-- First index `i ≥` the running counter at which `sub` occurs in the
remaining text; backbone of Python `str.find`. -/
def findSubFromAux (sub : List Char) : List Char → Nat → Option Nat
  | [], i => if sub.isEmpty then some i else none
  | c :: rest, i =>
    if sub.isPrefixOf (c :: rest) then some i
    else findSubFromAux sub rest (i + 1)

/-- Python `text.find(sub, start)` (with Python's negative-`start`
normalisation), returning `-1` when `sub` does not occur. -/
def pyFind (sub text : List Char) (start : Int) : Int :=
  let n : Int := text.length
  let st : Nat := if start < 0 then (max (n + start) 0).toNat else start.toNat
  match findSubFromAux sub (text.drop st) st with
  | some i => (i : Int)
  | none => -1

/-- Second half of `ChunkingService._split_into_sentences`: keep the
non-blank parts, strip them, and attach `(start, end)` offsets located with
`text.find(part, current_pos)`. -/
def sentencesOfParts (text : List Char) : List (List Char) → Int → List (List Char × Int × Int)
  | [], _ => []
  | part :: rest, pos =>
    if part.isEmpty || (pyStrip part).isEmpty then sentencesOfParts text rest pos
    else
      let p := pyStrip part
      let s := pyFind p text pos
      let e := s + p.length
      (p, s, e) :: sentencesOfParts text rest e

/-- `ChunkingService._split_into_sentences`: regex split plus the
fallback that treats the whole text as one sentence. -/
def splitIntoSentences (text : List Char) : List (List Char × Int × Int) :=
  let parts := splitSentAux none [] (text.length + 1) text
  let sentences := sentencesOfParts text parts 0
  if sentences.isEmpty then [(text, 0, (text.length : Int))] else sentences

/-- Accumulator of the `_chunk_by_sentences` loop. -/
structure SentChunkState where
  chunks : List (List Char × Int × Int)
  currentChunk : List (List Char)
  currentLength : Nat
  currentStart : Int

/-- One iteration of the `for sentence, start_idx, end_idx in sentences`
loop of `_chunk_by_sentences` (chunking_service.py lines 112-133). -/
def sentChunkStep (st : SentChunkState) (sent : List Char × Int × Int) : SentChunkState :=
  let sentence := sent.1
  let startIdx := sent.2.1
  let sentenceLength := sentence.length
  let st1 :=
    if st.currentLength + sentenceLength > chunkServiceChunkSize && !st.currentChunk.isEmpty then
      let chunkTxt := joinSep [' '] st.currentChunk
      let chunks := st.chunks ++ [(chunkTxt, st.currentStart, startIdx)]
      if chunkServiceOverlap > 0 && st.currentChunk.length > 1 then
        let last := st.currentChunk.getLastD []
        { chunks := chunks, currentChunk := [last], currentLength := last.length,
          currentStart := startIdx - (last.length : Int) }
      else
        { chunks := chunks, currentChunk := [], currentLength := 0, currentStart := startIdx }
    else st
  { st1 with currentChunk := st1.currentChunk ++ [sentence],
             currentLength := st1.currentLength + sentenceLength + 1 }

/-- `ChunkingService._chunk_by_sentences`. -/
def chunkBySentences (text : List Char) : List (List Char × Int × Int) :=
  let sentences := splitIntoSentences text
  let st := sentences.foldl sentChunkStep ⟨[], [], 0, 0⟩
  if st.currentChunk.isEmpty then st.chunks
  else st.chunks ++ [(joinSep [' '] st.currentChunk, st.currentStart, (text.length : Int))]

/-- The break characters of `_chunk_by_characters` line 164: the Python
literal `' .,;!?\\n'` holds a backslash and the letter `n`, not a newline. -/
def breakChars : List Char := [' ', '.', ',', ';', '!', '?', '\\', 'n']

/-- The backward search `for i in range(end, max(start + min_chunk_size,
end - 50), -1)` of `_chunk_by_characters`: scan `i` downward from `end`
while `i > b`, looking for a break character.  Fuel `i + 1` bounds the
descending scan structurally. -/
def findBreakDescFuel (text : List Char) (b : Nat) : Nat → Nat → Option Nat
  | 0, _ => none
  | fuel + 1, i =>
    if i ≤ b then none
    else
      match text.get? i with
      | some ch =>
        if ch ∈ breakChars then some i else findBreakDescFuel text b fuel (i - 1)
      | none => findBreakDescFuel text b fuel (i - 1)

/-- Entry point of the backward break-character search. -/
def findBreakDesc (text : List Char) (b : Nat) (i : Nat) : Option Nat :=
  findBreakDescFuel text b (i + 1) i

/-- The `while start < text_length` loop of
`ChunkingService._chunk_by_characters`, with explicit fuel (the loop
advances `start` every iteration, so `text.length + 1` fuel suffices). -/
def chunkByCharsLoop (text : List Char) : Nat → Nat → List (List Char × Int × Int)
  | 0, _ => []
  | fuel + 1, start =>
    if start < text.length then
      let end0 := min (start + chunkServiceChunkSize) text.length
      let endF :=
        if end0 < text.length then
          match findBreakDesc text (max (start + minChunkSize) (end0 - 50)) end0 with
          | some i => i + 1
          | none => end0
        else end0
      let chunkTxt := pyStrip ((text.drop start).take (endF - start))
      let acc := if chunkTxt.isEmpty then [] else [(chunkTxt, (start : Int), (endF : Int))]
      if endF < text.length then
        acc ++ chunkByCharsLoop text fuel (endF - chunkServiceOverlap)
      else acc
    else []

/-- `ChunkingService._chunk_by_characters`. -/
def chunkByCharacters (text : List Char) : List (List Char × Int × Int) :=
  chunkByCharsLoop text (text.length + 1) 0

/-- One chunk dictionary as built by `ChunkingService.chunk_text`; the
short-input branch omits the `chunk_size` key, modelled by `none`. -/
structure ChunkDict where
  chunkId : Nat
  text : String
  startIndex : Int
  endIndex : Int
  chunkNumber : Nat
  totalChunks : Nat
  chunkSize : Option Nat
deriving DecidableEq, Repr

/-- `ChunkingService.chunk_text` (chunking_service.py lines 29-74). -/
def chunkText (text : String) (preserveSentences : Bool) : List ChunkDict :=
  if text.data.isEmpty || decide ((pyStrip text.data).length < minChunkSize) then
    [{ chunkId := 0, text := String.mk (pyStrip text.data), startIndex := 0,
       endIndex := (text.data.length : Int), chunkNumber := 1, totalChunks := 1,
       chunkSize := none }]
  else
    let cleaned := cleanText text.data
    let chunks := if preserveSentences then chunkBySentences cleaned
                  else chunkByCharacters cleaned
    let total := chunks.length
    chunks.enum.map fun p =>
      { chunkId := p.1, text := String.mk p.2.1, startIndex := p.2.2.1,
        endIndex := p.2.2.2, chunkNumber := p.1 + 1, totalChunks := total,
        chunkSize := some p.2.1.length }

/-- Every step of the `_chunk_by_sentences` loop ends by appending the
current sentence, so the running chunk is never empty afterwards. -/
theorem sentChunkStep_currentChunk_ne_nil (st : SentChunkState) (sent : List Char × Int × Int) :
    (sentChunkStep st sent).currentChunk ≠ [] := by
  simp only [sentChunkStep]
  intro h
  exact absurd h (List.append_ne_nil_of_right_ne_nil _ (by simp))

/-- Folding the loop over a non-empty sentence list leaves a non-empty
running chunk. -/
theorem foldl_sentChunkStep_ne_nil :
    ∀ (l : List (List Char × Int × Int)) (st : SentChunkState), l ≠ [] →
      (l.foldl sentChunkStep st).currentChunk ≠ [] := by
  intro l
  induction l with
  | nil => intro st h; exact absurd rfl h
  | cons x xs ih =>
    intro st _
    rw [List.foldl_cons]
    cases xs with
    | nil => exact sentChunkStep_currentChunk_ne_nil st x
    | cons y ys => exact ih _ (by simp)

/-- `_split_into_sentences` never returns an empty list (the no-boundary
fallback yields the whole text as one sentence). -/
theorem splitIntoSentences_ne_nil (text : List Char) : splitIntoSentences text ≠ [] := by
  simp only [splitIntoSentences]
  split
  · simp
  · next h => simpa using h

/-- `_chunk_by_sentences` never returns an empty list. -/
theorem chunkBySentences_ne_nil (text : List Char) : chunkBySentences text ≠ [] := by
  have hs := splitIntoSentences_ne_nil text
  have hne := foldl_sentChunkStep_ne_nil (splitIntoSentences text) ⟨[], [], 0, 0⟩ hs
  simp only [chunkBySentences]
  split
  · next h => exact absurd (by simpa using h) hne
  · exact List.append_ne_nil_of_right_ne_nil _ (by simp)

/-- C7 (counterexample): the claim's closing guarantee "every input yields
at least one chunk" fails on the code: for 60 repetitions of 'é'
(trimmed length 60 ≥ 50, so the short-input branch is skipped) in
character mode, `_clean_text`'s ASCII projection empties the text and
`chunk_text` returns the empty list. -/
theorem c7_counterexample_char_mode_empty :
    chunkText (String.mk (List.replicate 60 'é')) false = [] := by decide

/-- C7 (amended): for every input whose trimmed length is below the
minimum viable chunk size 50, `chunk_text` returns exactly one chunk
holding the trimmed text, spanning offsets 0 to `len(text)`, marked chunk
1 of 1 (in either chunking mode); and in sentence-preserving mode (the
default) every input yields at least one chunk.  (By
`c7_counterexample_char_mode_empty`, the "at least one chunk" guarantee
does not extend to character mode.) -/
theorem c7_short_input_single_chunk :
    (∀ (text : String) (preserveSentences : Bool),
      (pyStrip text.data).length < minChunkSize →
        chunkText text preserveSentences =
          [{ chunkId := 0, text := String.mk (pyStrip text.data), startIndex := 0,
             endIndex := (text.data.length : Int), chunkNumber := 1, totalChunks := 1,
             chunkSize := none }])
    ∧ (∀ text : String, 1 ≤ (chunkText text true).length) := by
  constructor
  · intro text preserveSentences h
    simp only [chunkText]
    rw [if_pos]
    simp only [Bool.or_eq_true, decide_eq_true_eq]
    exact Or.inr h
  · intro text
    simp only [chunkText]
    split
    · simp
    · simp only [if_true, List.length_map, List.enum_length]
      exact List.length_pos.mpr (chunkBySentences_ne_nil _)

/-- C7 witness: instantiating the short-input branch at "Hi." (trimmed
length 3 < 50). -/
theorem c7_short_input_single_chunk_witness :
    (pyStrip "Hi.".data).length < minChunkSize ∧
      chunkText "Hi." true =
        [{ chunkId := 0, text := "Hi.", startIndex := 0, endIndex := 3,
           chunkNumber := 1, totalChunks := 1, chunkSize := none }] :=
  ⟨by decide, c7_short_input_single_chunk.1 "Hi." true (by decide)⟩

/-! ### The tokenization service (`app/services/tokenization_service.py`) -/

/-- `self.max_cache_size = 2000` of `TokenizationService.__init__`. -/
def tokMaxCacheSize : Nat := 2000

/-- Zero-width characters of the pattern `r'[​-‍﻿]'`. -/
def isZeroWidth (c : Char) : Bool :=
  (0x200b ≤ c.toNat && c.toNat ≤ 0x200d) || c.toNat == 0xfeff

/-- `TokenizationService._basic_text_cleaning`.  The quote-normalisation
lines of the source are themselves mojibake-corrupted: line 193 replaces a
straight double quote by itself, and line 194 parses (because of a
triple-quoted string) as one `replace` whose pattern is the 15-character
literal `, "'").replace(`; both are embedded exactly as they execute. -/
def basicTextCleaning (text : List Char) : List Char :=
  let t1 := joinSep [' '] (pySplitWs text)
  let t2 := t1.filter (fun c => !isZeroWidth c)
  let t3 := replaceSub "\"".data "\"".data (replaceSub "\"".data "\"".data t2)
  let t4 := replaceSub ", \"'\").replace(".data "'".data t3
  let t5 := replaceSub "—".data "-".data (replaceSub "–".data "-".data t4)
  let t6 := replaceSub "â€".data "\"".data
    (replaceSub "â€œ".data "\"".data (replaceSub "â€™".data "'".data t5))
  pyStrip t6

/-- The English contraction alternatives of the pattern
`r"(n't|'re|'ve|'ll|'d|'s)"`, each paired with the replacement
`m.group(1).replace("'", "")`, in the regex's alternation order. -/
def contractionAlts : List (List Char × List Char) :=
  [("n't".data, "nt".data), ("'re".data, "re".data), ("'ve".data, "ve".data),
   ("'ll".data, "ll".data), ("'d".data, "d".data), ("'s".data, "s".data)]

/-- `re.sub` over the contraction alternation: at each position try the
alternatives in order; on a match emit the apostrophe-free replacement and
skip the match. -/
def applyContractions : Nat → List Char → List Char
  | 0, s => s
  | _, [] => []
  | fuel + 1, c :: rest =>
    match contractionAlts.find? (fun p => p.1.isPrefixOf (c :: rest)) with
    | some p => p.2 ++ applyContractions fuel ((c :: rest).drop p.1.length)
    | none => c :: applyContractions fuel rest

/-- `TokenizationService._apply_language_specific_optimization`: English
contraction rewriting, language-specific punctuation normalisation for
fr/de/es/hi, identity for unsupported languages.  (The de branch's second
`replace` is, in the corrupted source, a straight-quote no-op.) -/
def applyLanguageSpecificOptimization (text : List Char) (language : String) : List Char :=
  if language == "en" then
    applyContractions text.length text
  else if language == "fr" then
    replaceSub "»".data "\"".data (replaceSub "«".data "\"".data text)
  else if language == "de" then
    replaceSub "\"".data "\"".data (replaceSub "„".data "\"".data text)
  else if language == "es" then
    replaceSub "¡".data "".data (replaceSub "¿".data "".data text)
  else if language == "hi" then
    replaceSub "।".data ".".data text
  else text

/-- The two-character emoticon pattern `r'[:\-=][)(\[\]DPpOo/\\|]'`. -/
def isEmoticonPair (c1 c2 : Char) : Bool :=
  (c1 == ':' || c1 == '-' || c1 == '=') &&
  (c2 == ')' || c2 == '(' || c2 == '[' || c2 == ']' || c2 == 'D' || c2 == 'P' ||
   c2 == 'p' || c2 == 'O' || c2 == 'o' || c2 == '/' || c2 == '\\' || c2 == '|')

/-- `re.sub(emoticon_pattern, lambda m: ' ' + m.group() + ' ', text)`. -/
def emoticonPad : Nat → List Char → List Char
  | 0, s => s
  | _, [] => []
  | _ + 1, [c] => [c]
  | fuel + 1, c1 :: c2 :: rest =>
    if isEmoticonPair c1 c2 then ' ' :: c1 :: c2 :: ' ' :: emoticonPad fuel rest
    else c1 :: emoticonPad fuel (c2 :: rest)

/-- Is the character `!` or `?`. -/
def isBangOrQm (c : Char) : Bool := c == '!' || c == '?'

/-- `re.sub(r'([!?]){2,}', r'\1\1', text)`: a maximal run of two or more
`!`/`?` characters is replaced by its last character doubled (in Python,
`\1` holds the last repetition's capture). -/
def punctRepeatCollapse : Nat → List Char → List Char
  | 0, s => s
  | _, [] => []
  | fuel + 1, c :: rest =>
    if isBangOrQm c then
      let run := (c :: rest).takeWhile isBangOrQm
      if 2 ≤ run.length then
        let last := run.getLastD c
        last :: last :: punctRepeatCollapse fuel ((c :: rest).drop run.length)
      else c :: punctRepeatCollapse fuel rest
    else c :: punctRepeatCollapse fuel rest

/-- `re.sub(r'([.]){3,}', '...', text)`: a run of three or more periods
becomes exactly three. -/
def ellipsisCollapse : Nat → List Char → List Char
  | 0, s => s
  | _, [] => []
  | fuel + 1, c :: rest =>
    if c == '.' then
      let run := (c :: rest).takeWhile (fun x => x == '.')
      if 3 ≤ run.length then
        '.' :: '.' :: '.' :: ellipsisCollapse fuel ((c :: rest).drop run.length)
      else c :: ellipsisCollapse fuel rest
    else c :: ellipsisCollapse fuel rest

/-- Python `str.capitalize()`: first character upper-cased, the rest
lower-cased. -/
def pyCapitalize : List Char → List Char
  | [] => []
  | c :: rest => c.toUpper :: rest.map Char.toLower

/-- The ALL-CAPS word rule of `_apply_sentiment_preprocessing`:
`len(word) > 2 and word.isupper() and word.isalpha()` (ASCII range) turns
the word into `word.capitalize() + '!'`. -/
def capsWord (w : List Char) : List Char :=
  if 2 < w.length && w.all Char.isUpper && w.all Char.isAlpha then
    pyCapitalize w ++ ['!']
  else w

/-- `TokenizationService._apply_sentiment_preprocessing`. -/
def applySentimentPreprocessing (text : List Char) : List Char :=
  let t1 := emoticonPad text.length text
  let t2 := punctRepeatCollapse t1.length t1
  let t3 := ellipsisCollapse t2.length t2
  joinSep [' '] ((pySplitWs t3).map capsWord)

/-- The punctuation class `[.!?,;:]` of `_normalize_tokens`. -/
def isPunctToken (c : Char) : Bool :=
  c == '.' || c == '!' || c == '?' || c == ',' || c == ';' || c == ':'

/-- `re.sub(r'\s+([.!?,;:])', r'\1', text)`: delete a whitespace run that
directly precedes a punctuation character. -/
def rmSpaceBeforePunct : Nat → List Char → List Char
  | 0, s => s
  | _, [] => []
  | fuel + 1, c :: rest =>
    if pyIsSpace c then
      let run := (c :: rest).takeWhile pyIsSpace
      match (c :: rest).drop run.length with
      | p :: after =>
        if isPunctToken p then p :: rmSpaceBeforePunct fuel after
        else c :: rmSpaceBeforePunct fuel rest
      | [] => c :: rmSpaceBeforePunct fuel rest
    else c :: rmSpaceBeforePunct fuel rest

/-- `re.sub(r'([.!?,;:])\s*', r'\1 ', text)`: each punctuation character,
with any following whitespace run, becomes the character plus exactly one
space. -/
def spaceAfterPunct : Nat → List Char → List Char
  | 0, s => s
  | _, [] => []
  | fuel + 1, c :: rest =>
    if isPunctToken c then
      c :: ' ' :: spaceAfterPunct fuel (rest.dropWhile pyIsSpace)
    else c :: spaceAfterPunct fuel rest

/-- `TokenizationService._normalize_tokens`. -/
def normalizeTokens (text : List Char) : List Char :=
  let t1 := rmSpaceBeforePunct text.length text
  let t2 := spaceAfterPunct t1.length t1
  pyStrip (joinSep [' '] (pySplitWs t2))

/-- `TokenizationService._apply_tokenization_pipeline`
(tokenization_service.py lines 168-182). -/
def applyTokenizationPipeline (text : List Char) (language : String) : List Char :=
  normalizeTokens
    (applySentimentPreprocessing
      (applyLanguageSpecificOptimization (basicTextCleaning text) language))

/-! ### Length bounds for the normalizer (claim C8) -/

/-- `str.strip` never lengthens. -/
theorem pyStrip_length_le (l : List Char) : (pyStrip l).length ≤ l.length := by
  unfold pyStrip
  have h1 := dropWhile_length_le pyIsSpace l
  have h2 := dropWhile_length_le pyIsSpace (l.dropWhile pyIsSpace).reverse
  simp only [List.length_reverse] at *
  omega

/-- `str.replace` with a replacement no longer than its pattern never
lengthens. -/
theorem replaceSubFuel_length_le (pat repl : List Char) (hrepl : repl.length ≤ pat.length) :
    ∀ (fuel : Nat) (s : List Char), (replaceSubFuel pat repl fuel s).length ≤ s.length := by
  intro fuel
  induction fuel with
  | zero => intro s; simp [replaceSubFuel]
  | succ fuel ih =>
    intro s
    cases s with
    | nil => simp [replaceSubFuel]
    | cons c rest =>
      simp only [replaceSubFuel]
      split
      · next hcond =>
          simp only [Bool.and_eq_true] at hcond
          have hpre : pat.length ≤ rest.length + 1 := by
            simpa using (List.isPrefixOf_iff_prefix.mp hcond.1).length_le
          have := ih (rest.drop (pat.length - 1))
          simp only [List.length_append, List.length_cons, List.length_drop] at *
          omega
      · simp only [List.length_cons]
        exact Nat.succ_le_succ (ih rest)

/-- Top-level form of the previous bound. -/
theorem replaceSub_length_le (pat repl : List Char) (hrepl : repl.length ≤ pat.length)
    (s : List Char) : (replaceSub pat repl s).length ≤ s.length :=
  replaceSubFuel_length_le pat repl hrepl s.length s

/-- Joining a cons costs at most the head, the separator, and the joined
tail. -/
theorem joinSep_cons_length_le (sep x : List Char) (ys : List (List Char)) :
    (joinSep sep (x :: ys)).length ≤ x.length + sep.length + (joinSep sep ys).length := by
  cases ys with
  | nil => simp [joinSep]
  | cons y rest => simp [joinSep]; omega

/-- `' '.join(text.split())` never lengthens (generalised over the
scanner's accumulator). -/
theorem joinSep_pySplitWsAux_length_le :
    ∀ (l acc : List Char), (joinSep [' '] (pySplitWsAux l acc)).length ≤ l.length + acc.length := by
  intro l
  induction l with
  | nil =>
    intro acc
    simp only [pySplitWsAux]
    split
    · simp [joinSep]
    · simp [joinSep]
  | cons c rest ih =>
    intro acc
    simp only [pySplitWsAux]
    split
    · split
      · have := ih []
        simp only [List.length_nil, List.length_cons] at *
        omega
      · have hc := joinSep_cons_length_le [' '] acc.reverse (pySplitWsAux rest [])
        have := ih []
        simp only [List.length_nil, List.length_cons, List.length_reverse,
          List.length_singleton] at *
        omega
    · have := ih (c :: acc)
      simp only [List.length_cons] at *
      omega

/-- `' '.join(text.split())` never lengthens. -/
theorem joinSep_pySplitWs_length_le (l : List Char) :
    (joinSep [' '] (pySplitWs l)).length ≤ l.length := by
  have := joinSep_pySplitWsAux_length_le l []
  simpa [pySplitWs] using this

/-- `str.split()` yields no empty parts. -/
theorem pySplitWsAux_mem_ne_nil :
    ∀ (l acc w : List Char), w ∈ pySplitWsAux l acc → w ≠ [] := by
  intro l
  induction l with
  | nil =>
    intro acc w hw
    simp only [pySplitWsAux] at hw
    split at hw
    · simp at hw
    · next h =>
      simp only [List.mem_singleton] at hw
      subst hw
      simp only [ne_eq, List.reverse_eq_nil_iff]
      simpa [List.isEmpty_iff] using h
  | cons c rest ih =>
    intro acc w hw
    simp only [pySplitWsAux] at hw
    split at hw
    · split at hw
      · exact ih [] w hw
      · next h =>
        rcases List.mem_cons.mp hw with heq | hmem
        · subst heq
          simp only [ne_eq, List.reverse_eq_nil_iff]
          simpa [List.isEmpty_iff] using h
        · exact ih [] w hmem
    · exact ih (c :: acc) w hw

/-- With every part non-empty, the part count is at most the total length. -/
theorem count_le_sum_of_ne_nil :
    ∀ ws : List (List Char), (∀ w ∈ ws, w ≠ []) →
      ws.length ≤ (ws.map List.length).sum := by
  intro ws
  induction ws with
  | nil => simp
  | cons x rest ih =>
    intro h
    have hx : 1 ≤ x.length :=
      List.length_pos.mpr (h x (List.mem_cons_self x rest))
    have := ih (fun w hw => h w (List.mem_cons_of_mem x hw))
    simp only [List.map_cons, List.sum_cons, List.length_cons]
    omega

/-- The summed part lengths are at most the joined length. -/
theorem sum_le_joinSep_length :
    ∀ ws : List (List Char), (ws.map List.length).sum ≤ (joinSep [' '] ws).length := by
  intro ws
  induction ws with
  | nil => simp [joinSep]
  | cons x rest ih =>
    cases rest with
    | nil => simp [joinSep]
    | cons y t =>
      simp only [List.map_cons, List.sum_cons, joinSep, List.length_append,
        List.length_cons, List.length_singleton] at *
      omega

/-- Mapping a `+1`-bounded word transform over the parts adds at most one
character per part after joining. -/
theorem joinSep_map_length_le (f : List Char → List Char)
    (hf : ∀ w, (f w).length ≤ w.length + 1) :
    ∀ ws : List (List Char),
      (joinSep [' '] (ws.map f)).length ≤ (joinSep [' '] ws).length + ws.length := by
  intro ws
  induction ws with
  | nil => simp [joinSep]
  | cons x rest ih =>
    cases rest with
    | nil => simpa [joinSep] using hf x
    | cons y t =>
      have hx := hf x
      simp only [List.map_cons, joinSep, List.length_append, List.length_cons,
        List.length_singleton] at *
      omega

/-- The ALL-CAPS rule adds at most one character per word. -/
theorem capsWord_length_le (w : List Char) : (capsWord w).length ≤ w.length + 1 := by
  unfold capsWord
  split
  · cases w with
    | nil => simp [pyCapitalize]
    | cons c rest => simp [pyCapitalize]
  · omega

/-- The split/caps/join step of `_apply_sentiment_preprocessing` at most
doubles the text. -/
theorem capsJoin_length_le (l : List Char) :
    (joinSep [' '] ((pySplitWs l).map capsWord)).length ≤ 2 * l.length := by
  have h1 := joinSep_map_length_le capsWord capsWord_length_le (pySplitWs l)
  have h2 := joinSep_pySplitWs_length_le l
  have h3 := count_le_sum_of_ne_nil (pySplitWs l) (pySplitWsAux_mem_ne_nil l [])
  have h4 := sum_le_joinSep_length (pySplitWs l)
  omega

/-- Emoticon padding at most doubles the text. -/
theorem emoticonPad_length_le : ∀ (fuel : Nat) (s : List Char),
    (emoticonPad fuel s).length ≤ 2 * s.length := by
  intro fuel
  induction fuel with
  | zero => intro s; simp only [emoticonPad]; omega
  | succ fuel ih =>
    intro s
    match s with
    | [] => simp [emoticonPad]
    | [c] => simp [emoticonPad]
    | c1 :: c2 :: rest =>
      simp only [emoticonPad]
      split
      · have := ih rest
        simp only [List.length_cons]
        omega
      · have := ih (c2 :: rest)
        simp only [List.length_cons] at *
        omega

/-- Collapsing repeated `!`/`?` runs never lengthens. -/
theorem punctRepeatCollapse_length_le : ∀ (fuel : Nat) (s : List Char),
    (punctRepeatCollapse fuel s).length ≤ s.length := by
  intro fuel
  induction fuel with
  | zero => intro s; simp [punctRepeatCollapse]
  | succ fuel ih =>
    intro s
    cases s with
    | nil => simp [punctRepeatCollapse]
    | cons c rest =>
      simp only [punctRepeatCollapse]
      split
      · split
        · next hrun =>
          have hlen := (List.takeWhile_sublist isBangOrQm (l := c :: rest)).length_le
          have := ih ((c :: rest).drop ((c :: rest).takeWhile isBangOrQm).length)
          simp only [List.length_cons, List.length_drop] at *
          omega
        · simp only [List.length_cons]
          exact Nat.succ_le_succ (ih rest)
      · simp only [List.length_cons]
        exact Nat.succ_le_succ (ih rest)

/-- Collapsing period runs to an ellipsis never lengthens. -/
theorem ellipsisCollapse_length_le : ∀ (fuel : Nat) (s : List Char),
    (ellipsisCollapse fuel s).length ≤ s.length := by
  intro fuel
  induction fuel with
  | zero => intro s; simp [ellipsisCollapse]
  | succ fuel ih =>
    intro s
    cases s with
    | nil => simp [ellipsisCollapse]
    | cons c rest =>
      simp only [ellipsisCollapse]
      split
      · split
        · next hrun =>
          have hlen := (List.takeWhile_sublist (fun x => x == '.') (l := c :: rest)).length_le
          have := ih ((c :: rest).drop ((c :: rest).takeWhile (fun x => x == '.')).length)
          simp only [List.length_cons, List.length_drop] at *
          omega
        · simp only [List.length_cons]
          exact Nat.succ_le_succ (ih rest)
      · simp only [List.length_cons]
        exact Nat.succ_le_succ (ih rest)

/-- Deleting whitespace before punctuation never lengthens. -/
theorem rmSpaceBeforePunct_length_le : ∀ (fuel : Nat) (s : List Char),
    (rmSpaceBeforePunct fuel s).length ≤ s.length := by
  intro fuel
  induction fuel with
  | zero => intro s; simp [rmSpaceBeforePunct]
  | succ fuel ih =>
    intro s
    cases s with
    | nil => simp [rmSpaceBeforePunct]
    | cons c rest =>
      simp only [rmSpaceBeforePunct]
      split
      · split
        · next p after heq =>
          split
          · have hdroplen : ((c :: rest).drop ((c :: rest).takeWhile pyIsSpace).length).length
                = (p :: after).length := by rw [heq]
            have := ih after
            simp only [List.length_cons, List.length_drop] at *
            omega
          · simp only [List.length_cons]
            exact Nat.succ_le_succ (ih rest)
        · simp only [List.length_cons]
          exact Nat.succ_le_succ (ih rest)
      · simp only [List.length_cons]
        exact Nat.succ_le_succ (ih rest)

/-- Inserting one space after punctuation at most doubles the text. -/
theorem spaceAfterPunct_length_le : ∀ (fuel : Nat) (s : List Char),
    (spaceAfterPunct fuel s).length ≤ 2 * s.length := by
  intro fuel
  induction fuel with
  | zero => intro s; simp only [spaceAfterPunct]; omega
  | succ fuel ih =>
    intro s
    cases s with
    | nil => simp [spaceAfterPunct]
    | cons c rest =>
      simp only [spaceAfterPunct]
      split
      · have hd := dropWhile_length_le pyIsSpace rest
        have := ih (rest.dropWhile pyIsSpace)
        simp only [List.length_cons]
        omega
      · have := ih rest
        simp only [List.length_cons]
        omega

/-- Every replacement of `contractionAlts` is no longer than its pattern. -/
theorem contractionAlts_repl_le : ∀ p ∈ contractionAlts, p.2.length ≤ p.1.length := by decide

/-- Contraction rewriting never lengthens. -/
theorem applyContractions_length_le : ∀ (fuel : Nat) (s : List Char),
    (applyContractions fuel s).length ≤ s.length := by
  intro fuel
  induction fuel with
  | zero => intro s; simp [applyContractions]
  | succ fuel ih =>
    intro s
    cases s with
    | nil => simp [applyContractions]
    | cons c rest =>
      simp only [applyContractions]
      cases hfind : contractionAlts.find? (fun p => p.1.isPrefixOf (c :: rest)) with
      | none =>
        simp only [List.length_cons]
        exact Nat.succ_le_succ (ih rest)
      | some p =>
        have hmem := List.mem_of_find?_eq_some hfind
        have hpred := List.find?_some hfind
        have hrepl := contractionAlts_repl_le p hmem
        have hpre : p.1.length ≤ rest.length + 1 := by
          simpa using (List.isPrefixOf_iff_prefix.mp hpred).length_le
        have := ih ((c :: rest).drop p.1.length)
        simp only [List.length_append, List.length_cons, List.length_drop] at *
        omega

/-- `_basic_text_cleaning` never lengthens. -/
theorem basicTextCleaning_length_le (text : List Char) :
    (basicTextCleaning text).length ≤ text.length := by
  simp only [basicTextCleaning]
  refine le_trans (pyStrip_length_le _) ?_
  refine le_trans (replaceSub_length_le _ _ (by decide) _) ?_
  refine le_trans (replaceSub_length_le _ _ (by decide) _) ?_
  refine le_trans (replaceSub_length_le _ _ (by decide) _) ?_
  refine le_trans (replaceSub_length_le _ _ (by decide) _) ?_
  refine le_trans (replaceSub_length_le _ _ (by decide) _) ?_
  refine le_trans (replaceSub_length_le _ _ (by decide) _) ?_
  refine le_trans (replaceSub_length_le _ _ (by decide) _) ?_
  refine le_trans (replaceSub_length_le _ _ (by decide) _) ?_
  refine le_trans (List.length_filter_le _ _) ?_
  exact joinSep_pySplitWs_length_le text

/-- `_apply_language_specific_optimization` never lengthens. -/
theorem applyLanguageSpecificOptimization_length_le (text : List Char) (language : String) :
    (applyLanguageSpecificOptimization text language).length ≤ text.length := by
  simp only [applyLanguageSpecificOptimization]
  split
  · exact applyContractions_length_le _ _
  · split
    · exact le_trans (replaceSub_length_le _ _ (by decide) _)
        (replaceSub_length_le _ _ (by decide) _)
    · split
      · exact le_trans (replaceSub_length_le _ _ (by decide) _)
          (replaceSub_length_le _ _ (by decide) _)
      · split
        · exact le_trans (replaceSub_length_le _ _ (by decide) _)
            (replaceSub_length_le _ _ (by decide) _)
        · split
          · exact replaceSub_length_le _ _ (by decide) _
          · exact le_refl _

/-- `_apply_sentiment_preprocessing` at most quadruples the text. -/
theorem applySentimentPreprocessing_length_le (text : List Char) :
    (applySentimentPreprocessing text).length ≤ 4 * text.length := by
  simp only [applySentimentPreprocessing]
  have h1 := emoticonPad_length_le text.length text
  have h2 := punctRepeatCollapse_length_le (emoticonPad text.length text).length
    (emoticonPad text.length text)
  have h3 := ellipsisCollapse_length_le
    (punctRepeatCollapse (emoticonPad text.length text).length (emoticonPad text.length text)).length
    (punctRepeatCollapse (emoticonPad text.length text).length (emoticonPad text.length text))
  have h4 := capsJoin_length_le
    (ellipsisCollapse
      (punctRepeatCollapse (emoticonPad text.length text).length
        (emoticonPad text.length text)).length
      (punctRepeatCollapse (emoticonPad text.length text).length (emoticonPad text.length text)))
  omega

/-- `_normalize_tokens` at most doubles the text. -/
theorem normalizeTokens_length_le (text : List Char) :
    (normalizeTokens text).length ≤ 2 * text.length := by
  simp only [normalizeTokens]
  have h1 := rmSpaceBeforePunct_length_le text.length text
  have h2 := spaceAfterPunct_length_le (rmSpaceBeforePunct text.length text).length
    (rmSpaceBeforePunct text.length text)
  have h3 := joinSep_pySplitWs_length_le
    (spaceAfterPunct (rmSpaceBeforePunct text.length text).length
      (rmSpaceBeforePunct text.length text))
  have h4 := pyStrip_length_le
    (joinSep [' '] (pySplitWs
      (spaceAfterPunct (rmSpaceBeforePunct text.length text).length
        (rmSpaceBeforePunct text.length text))))
  omega

/-- C8 (counterexample): the claimed bound "output length ≤ input length ×
1.2" fails: the normalizer maps "ABC" (length 3) to "Abc!" (length 4),
and 4 > 3.6.  (The ALL-CAPS rule appends a character per emphasised word,
so the excess grows with the input.) -/
theorem c8_counterexample_length_ratio :
    ¬ (((applyTokenizationPipeline "ABC".data "en").length : ℚ)
        ≤ 1.2 * ("ABC".data.length : ℚ)) := by
  have h : applyTokenizationPipeline "ABC".data "en" = "Abc!".data := by decide
  rw [h, show "Abc!".data.length = 4 from rfl, show "ABC".data.length = 3 from rfl]
  norm_num

/-- C8 (amended): the normalizer `_apply_tokenization_pipeline` is a total
function of its input (the embedding has no failing path: every regex
operation of the source is total, and the source has no exception handler
to reach), and its output length is linearly bounded — by 8 × the input
length; the advertised factor 1.2 is violated
(`c8_counterexample_length_ratio`), since ALL-CAPS emphasis, emoticon
padding and punctuation spacing each expand the text. -/
theorem c8_pipeline_linear_length_bound (text language : String) :
    (applyTokenizationPipeline text.data language).length ≤ 8 * text.data.length := by
  simp only [applyTokenizationPipeline]
  have h1 := basicTextCleaning_length_le text.data
  have h2 := applyLanguageSpecificOptimization_length_le (basicTextCleaning text.data) language
  have h3 := applySentimentPreprocessing_length_le
    (applyLanguageSpecificOptimization (basicTextCleaning text.data) language)
  have h4 := normalizeTokens_length_le
    (applySentimentPreprocessing
      (applyLanguageSpecificOptimization (basicTextCleaning text.data) language))
  omega

/-! ### A JSON model (`json.loads` as used by the gateway) -/

/-- JSON values as produced by `json.loads`. -/
inductive JsonValue : Type
  | null
  | bool (b : Bool)
  | num (q : ℚ)
  | str (s : String)
  | arr (items : List JsonValue)
  | obj (fields : List (String × JsonValue))
deriving Repr

/-- JSON whitespace (` \t\n\r`). -/
def jsonIsWs (c : Char) : Bool :=
  c == ' ' || c == '\t' || c == '\n' || c == '\r'

/-- Skip JSON whitespace. -/
def jsonSkipWs (l : List Char) : List Char := l.dropWhile jsonIsWs

/-- Decimal digits to a natural number. -/
def digitsToNat (ds : List Char) : Nat :=
  ds.foldl (fun n c => 10 * n + (c.toNat - 48)) 0

/-- Parse a JSON number (sign, integer part, optional fraction, optional
exponent) exactly; rejects an empty digit sequence.  The value is built
with natural-number arithmetic and a single `mkRat`, keeping it
kernel-reducible.  (The leading-zero restriction of strict JSON is not
modelled; no settled claim depends on it.) -/
def parseJsonNumber (l : List Char) : Option (ℚ × List Char) :=
  let signSplit : Bool × List Char := match l with | '-' :: r => (true, r) | _ => (false, l)
  let neg := signSplit.1
  let l1 := signSplit.2
  let ds := l1.takeWhile Char.isDigit
  if ds.isEmpty then none
  else
    let l2 := l1.drop ds.length
    -- (numerator, denominator-power-of-ten, rest) after the optional fraction
    let fracRes : Option (Nat × Nat × List Char) :=
      match l2 with
      | '.' :: r =>
        let fs := r.takeWhile Char.isDigit
        if fs.isEmpty then none
        else some (digitsToNat ds * 10 ^ fs.length + digitsToNat fs, fs.length, r.drop fs.length)
      | _ => some (digitsToNat ds, 0, l2)
    match fracRes with
    | none => none
    | some (num, tenPow, l3) =>
      let expRes : Option (Nat × Nat × List Char) :=
        match l3 with
        | e :: r =>
          if e == 'e' || e == 'E' then
            let esign : Bool × List Char :=
              match r with
              | '-' :: rr => (true, rr)
              | '+' :: rr => (false, rr)
              | _ => (false, r)
            let es := esign.2.takeWhile Char.isDigit
            if es.isEmpty then none
            else
              let ex := digitsToNat es
              if esign.1 then some (num, tenPow + ex, esign.2.drop es.length)
              else some (num * 10 ^ ex, tenPow, esign.2.drop es.length)
          else some (num, tenPow, l3)
        | [] => some (num, tenPow, l3)
      expRes.map (fun p =>
        (mkRat (if neg then -(p.1 : Int) else (p.1 : Int)) (10 ^ p.2.1), p.2.2))

/-- Parse the body of a JSON string after the opening quote, handling the
standard escapes; returns the content and the input after the closing
quote. -/
def parseJsonStrAux : Nat → List Char → Option (List Char × List Char)
  | 0, _ => none
  | _ + 1, [] => none
  | fuel + 1, c :: rest =>
    if c == '"' then some ([], rest)
    else if c == '\\' then
      match rest with
      | [] => none
      | e :: rest2 =>
        let dec : Option Char :=
          if e == '"' then some '"'
          else if e == '\\' then some '\\'
          else if e == '/' then some '/'
          else if e == 'b' then some (Char.ofNat 8)
          else if e == 'f' then some (Char.ofNat 12)
          else if e == 'n' then some '\n'
          else if e == 'r' then some '\r'
          else if e == 't' then some '\t'
          else none
        match dec with
        | some ch => (parseJsonStrAux fuel rest2).map (fun p => (ch :: p.1, p.2))
        | none => none
    else (parseJsonStrAux fuel rest).map (fun p => (c :: p.1, p.2))

mutual

/-- Recursive-descent JSON value parsing (fuel bounds the nesting; one
unit of fuel is spent per nesting level, so fuel beyond the input length
never runs out). -/
def parseJsonValue : Nat → List Char → Option (JsonValue × List Char)
  | 0, _ => none
  | fuel + 1, l =>
    match jsonSkipWs l with
    | [] => none
    | c :: rest =>
      if c == 'n' then
        if "ull".data.isPrefixOf rest then some (.null, rest.drop 3) else none
      else if c == 't' then
        if "rue".data.isPrefixOf rest then some (.bool true, rest.drop 3) else none
      else if c == 'f' then
        if "alse".data.isPrefixOf rest then some (.bool false, rest.drop 4) else none
      else if c == '"' then
        (parseJsonStrAux (rest.length + 1) rest).map (fun p => (.str (String.mk p.1), p.2))
      else if c == '[' then
        match jsonSkipWs rest with
        | ']' :: r => some (.arr [], r)
        | _ => (parseJsonElems fuel rest).map (fun p => (.arr p.1, p.2))
      else if c == '{' then
        match jsonSkipWs rest with
        | '}' :: r => some (.obj [], r)
        | _ => (parseJsonFields fuel rest).map (fun p => (.obj p.1, p.2))
      else
        (parseJsonNumber (c :: rest)).map (fun p => (.num p.1, p.2))

/-- Comma-separated array elements up to the closing bracket. -/
def parseJsonElems : Nat → List Char → Option (List JsonValue × List Char)
  | 0, _ => none
  | fuel + 1, l =>
    match parseJsonValue fuel l with
    | none => none
    | some (v, r) =>
      match jsonSkipWs r with
      | ',' :: r2 => (parseJsonElems fuel r2).map (fun p => (v :: p.1, p.2))
      | ']' :: r2 => some ([v], r2)
      | _ => none

/-- Comma-separated object members up to the closing brace. -/
def parseJsonFields : Nat → List Char → Option (List (String × JsonValue) × List Char)
  | 0, _ => none
  | fuel + 1, l =>
    match jsonSkipWs l with
    | '"' :: rest =>
      match parseJsonStrAux (rest.length + 1) rest with
      | none => none
      | some (k, r) =>
        match jsonSkipWs r with
        | ':' :: r2 =>
          match parseJsonValue fuel r2 with
          | none => none
          | some (v, r3) =>
            match jsonSkipWs r3 with
            | ',' :: r4 => (parseJsonFields fuel r4).map (fun p => ((String.mk k, v) :: p.1, p.2))
            | '}' :: r4 => some ([(String.mk k, v)], r4)
            | _ => none
        | _ => none
    | _ => none

end

/-- `json.loads`: parse one value and require only whitespace to follow. -/
def jsonLoads (s : String) : Option JsonValue :=
  match parseJsonValue (s.data.length + 1) s.data with
  | some (v, rest) => if (jsonSkipWs rest).isEmpty then some v else none
  | none => none

/-- `dict.get` on a parsed JSON object; with duplicate keys `json.loads`
keeps the last occurrence, hence the reversed search. -/
def objGet (fields : List (String × JsonValue)) (key : String) : Option JsonValue :=
  (fields.reverse.find? (fun p => p.1 == key)).map Prod.snd

/-- Python `float(x)` on a JSON-decoded value: numbers pass through, bools
become 0/1, numeric strings are parsed, everything else raises
(`none`). -/
def pyFloatOfJson : JsonValue → Option ℚ
  | .num q => some q
  | .bool b => some (if b then mkRat 1 1 else mkRat 0 1)
  | .str s =>
    let t := pyStrip s.data
    let t1 : List Char := match t with | '+' :: r => r | _ => t
    match parseJsonNumber t1 with
    | some (q, rest) => if rest.isEmpty then some q else none
    | none => none
  | _ => none

/-! ### The model gateway (`app/services/ollama_service.py`) -/

/-- One `ollama.Client.chat` invocation, as seen by the calling code:
either it raised, or it returned something falsy / without a `'message'`
key, or it returned a message with `content` and (possibly empty)
`thinking` fields. -/
inductive ChatOutcome : Type
  | raised (msg : String)
  | noMessage
  | message (content : String) (thinking : String)
deriving Repr

/-- `OllamaService._get_cache_key`: `f"{operation}_{md5(text)}"`; the MD5
hex digest is an injected parameter `md5Hex`. -/
def getCacheKey (md5Hex : String → String) (text operation : String) : String :=
  operation ++ "_" ++ md5Hex text

/-- The `'```json'` fence marker. -/
def fenceJson : List Char := "```json".data

/-- The `'```'` fence marker. -/
def fenceTicks : List Char := "```".data

/-- `re.sub(r'```json\s*', '', content)`: delete every fence-open marker
together with the whitespace run that follows it. -/
def removeFenceJson : Nat → List Char → List Char
  | 0, s => s
  | _, [] => []
  | fuel + 1, c :: rest =>
    if fenceJson.isPrefixOf (c :: rest) then
      removeFenceJson fuel (((c :: rest).drop 7).dropWhile pyIsSpace)
    else c :: removeFenceJson fuel rest

/-- `re.sub(r'```\s*$', '', content)`: delete a trailing fence marker — a
`'```'` whose entire remaining suffix is whitespace (the greedy `\s*`
reaches `$`). -/
def removeFenceEnd : Nat → List Char → List Char
  | 0, s => s
  | _, [] => []
  | fuel + 1, c :: rest =>
    if fenceTicks.isPrefixOf (c :: rest) && ((c :: rest).drop 3).all pyIsSpace then []
    else c :: removeFenceEnd fuel rest

/-- First (leftmost, greedy) match of `r'\[.*\]'` with `re.DOTALL`: from
the first `'['` to the last `']'` after it. -/
def extractArrayCandidate (cs : List Char) : Option (List Char) :=
  match cs.findIdx? (fun c => c == '[') with
  | none => none
  | some i =>
    match cs.reverse.findIdx? (fun c => c == ']') with
    | none => none
    | some rj =>
      let j := cs.length - 1 - rj
      if i < j then some ((cs.drop i).take (j - i + 1)) else none

/-- Start position of a `r'\[\s*\{'` prefix for the second pattern. -/
def arrObjStart : Nat → List Char → Nat → Option Nat
  | 0, _, _ => none
  | _ + 1, [], _ => none
  | fuel + 1, c :: rest, i =>
    if c == '[' && ((rest.dropWhile pyIsSpace).head? == some '{') then some i
    else arrObjStart fuel rest (i + 1)

/-- Position (in the reversed list) of a `r'\}\s*\]'` suffix end for the
second pattern. -/
def arrObjEndRev : Nat → List Char → Nat → Option Nat
  | 0, _, _ => none
  | _ + 1, [], _ => none
  | fuel + 1, c :: rest, i =>
    if c == ']' && ((rest.dropWhile pyIsSpace).head? == some '}') then some i
    else arrObjEndRev fuel rest (i + 1)

/-- First (leftmost, greedy) match of `r'\[\s*\{.*\}\s*\]'` with
`re.DOTALL`. -/
def extractArrObjCandidate (cs : List Char) : Option (List Char) :=
  match arrObjStart cs.length cs 0 with
  | none => none
  | some i =>
    match arrObjEndRev cs.length cs.reverse 0 with
    | none => none
    | some rj =>
      let j := cs.length - 1 - rj
      if i < j then some ((cs.drop i).take (j - i + 1)) else none

/-- Validate a candidate with `json.loads`. -/
def validateCandidate (cand : Option (List Char)) : Option (List Char) :=
  match cand with
  | some c => if (jsonLoads (String.mk c)).isSome then some c else none
  | none => none

/-- The two-pattern loop of `_extract_json_from_response`: take each
pattern's first match and keep the first one that parses. -/
def tryJsonPatterns (cs : List Char) : Option (List Char) :=
  match validateCandidate (extractArrayCandidate cs) with
  | some c => some c
  | none => validateCandidate (extractArrObjCandidate cs)

/-- Python `str.split(sep)` for a one-character separator (keeps empty
parts). -/
def splitOnChar (sep : Char) : List Char → List (List Char)
  | [] => [[]]
  | c :: rest =>
    let r := splitOnChar sep rest
    if c == sep then [] :: r
    else
      match r with
      | h :: t => (c :: h) :: t
      | [] => [[c]]

/-- The final line-scan of `_extract_json_from_response`: restart
collection at each stripped line starting with `'['`; once collecting,
append lines and stop at the first line ending with `']'`. -/
def lineScanAux : List (List Char) → Bool → List (List Char) → List (List Char)
  | [], _, acc => acc
  | line :: rest, inArray, acc =>
    let l := pyStrip line
    if l.head? == some '[' then lineScanAux rest true [l]
    else if inArray then
      let acc2 := acc ++ [l]
      if l.getLast? == some ']' then acc2
      else lineScanAux rest true acc2
    else lineScanAux rest false acc

/-- `OllamaService._extract_json_from_response` (ollama_service.py lines
711-783); `thinking` is the `'thinking'` field of the stored last
response, when one exists. -/
def extractJsonFromResponse (content : String) (thinking : Option String) : String :=
  let c1 := removeFenceJson content.data.length content.data
  let c2 := removeFenceEnd c1.length c1
  match tryJsonPatterns c2 with
  | some c => String.mk c
  | none =>
    let fromThinking : Option (List Char) :=
      match thinking with
      | some th => if th.data.isEmpty then none else tryJsonPatterns th.data
      | none => none
    match fromThinking with
    | some c => String.mk c
    | none =>
      let jsonLines := lineScanAux (splitOnChar '\n' c2) false []
      if jsonLines.isEmpty then ""
      else
        let potential := joinSep ['\n'] jsonLines
        if (jsonLoads (String.mk potential)).isSome then String.mk potential else ""

/-- One array entry of the batch response: `result_data.get('sentiment',
'neutral').lower()`, `float(result_data.get('confidence', 0.7))`, label
mapping, and the clamp `max(0.5, min(0.95, confidence))`; `none` models
the exceptions that abort the whole parse. -/
def batchItemOutcome : JsonValue → Option SentimentOutcome
  | .obj fields =>
    let sentStr : Option String :=
      match objGet fields "sentiment" with
      | some (.str s) => some (String.mk (pyLower s.data))
      | some _ => none
      | none => some "neutral"
    match sentStr with
    | none => none
    | some s =>
      let conf : Option ℚ :=
        match objGet fields "confidence" with
        | none => some (mkRat 7 10)
        | some jv => pyFloatOfJson jv
      match conf with
      | none => none
      | some c =>
        let label :=
          if s == "positive" then SentimentLabel.POSITIVE
          else if s == "negative" then SentimentLabel.NEGATIVE
          else SentimentLabel.NEUTRAL
        some (label, max (mkRat 1 2) (min (mkRat 19 20) c))
  | _ => none

/-- The parse half of `OllamaService._batch_sentiment_api_call` (lines
662-692): strip the content, run the extraction ladder, decode the JSON
array, map the items, pad with `(NEUTRAL, 0.6)` to the batch size and
truncate; `none` models every path that falls through to individual
processing. -/
def batchSentimentParse (content : String) (thinking : Option String) (n : Nat) :
    Option (List SentimentOutcome) :=
  let contentStripped := String.mk (pyStrip content.data)
  let jsonContent := extractJsonFromResponse contentStripped thinking
  if jsonContent.data.isEmpty then none
  else
    match jsonLoads jsonContent with
    | some (.arr items) =>
      match items.mapM batchItemOutcome with
      | some results =>
        some ((results ++ List.replicate (n - results.length)
          (SentimentLabel.NEUTRAL, mkRat 6 10)).take n)
      | none => none
    | _ => none

/-- `OllamaService._batch_sentiment_api_call`: on a parsed batch response
return its outcomes; on a raised call, a message-less response, or a parse
failure, process each text individually (`indiv` is the
`self.analyze_sentiment` closure; it never raises). -/
def batchSentimentApiCall (texts : List String) (chat : ChatOutcome)
    (indiv : String → SentimentOutcome) : List SentimentOutcome :=
  match chat with
  | .raised _ => texts.map indiv
  | .noMessage => texts.map indiv
  | .message content thinking =>
    match batchSentimentParse content (some thinking) texts.length with
    | some rs => rs
    | none => texts.map indiv

/-- `OllamaService.analyze_sentiment` (ollama_service.py lines 96-212).
Client state and the at-most-two `chat` invocations are explicit
parameters: `chat1` is the first call's outcome; on an
unauthorized/401-style raise the service re-initialises its client
(availability afterwards: `clientAfterReinit`) and retries once
(`chat2`); any other raise, and any exception inside the parse
(non-object JSON, non-string `sentiment`, unconvertible `confidence`),
lands in an exception handler that returns the heuristic fallback without
caching.  Returns the outcome and the updated sentiment cache. -/
def analyzeSentiment (md5Hex : String → String) (clientAvailable : Bool)
    (chat1 : ChatOutcome) (clientAfterReinit : Bool) (chat2 : ChatOutcome)
    (cache : PyDict SentimentOutcome) (text : String) :
    SentimentOutcome × PyDict SentimentOutcome :=
  let key := getCacheKey md5Hex text "sentiment"
  match dictLookup key cache with
  | some v => (v, cache)
  | none =>
    if !clientAvailable then (fallbackSentiment text, cache)
    else
      -- `response?` is `some (some content)` when a usable message arrived,
      -- `some none` when the response was falsy / without a message, and
      -- `none` when an exception path already returned the fallback.
      let response? : Option (Option String) :=
        match chat1 with
        | .raised msg =>
          if containsSub "unauthorized".data (pyLower msg.data)
              || containsSub "401".data msg.data then
            if clientAfterReinit then
              match chat2 with
              | .raised _ => none
              | .noMessage => some none
              | .message content _ => some (some content)
            else none
          else none
        | .noMessage => some none
        | .message content _ => some (some content)
      match response? with
      | none => (fallbackSentiment text, cache)
      | some none =>
        let result := fallbackSentiment text
        (result, dictInsert key result (manageCacheSize ollamaMaxCacheSize cache))
      | some (some rawContent) =>
        let content := String.mk (pyStrip rawContent.data)
        match jsonLoads content with
        | some (.obj fields) =>
          let sentStr : Option String :=
            match objGet fields "sentiment" with
            | some (.str s) => some (String.mk (pyLower s.data))
            | some _ => none
            | none => some "neutral"
          match sentStr with
          | none => (fallbackSentiment text, cache)
          | some sentimentStr =>
            let conf : Option ℚ :=
              match objGet fields "confidence" with
              | none => some (mkRat 7 10)
              | some jv => pyFloatOfJson jv
            match conf with
            | none => (fallbackSentiment text, cache)
            | some confidence0 =>
              let sentiment :=
                if sentimentStr == "positive" then SentimentLabel.POSITIVE
                else if sentimentStr == "negative" then SentimentLabel.NEGATIVE
                else SentimentLabel.NEUTRAL
              let confidence := max (mkRat 1 2) (min (mkRat 19 20) confidence0)
              let result := (sentiment, confidence)
              (result, dictInsert key result (manageCacheSize ollamaMaxCacheSize cache))
        | some _ => (fallbackSentiment text, cache)
        | none =>
          let contentLower := pyLower content.data
          let result :=
            if containsSub "positive".data contentLower then
              (SentimentLabel.POSITIVE, mkRat 75 100)
            else if containsSub "negative".data contentLower then
              (SentimentLabel.NEGATIVE, mkRat 75 100)
            else (SentimentLabel.NEUTRAL, mkRat 65 100)
          (result, dictInsert key result (manageCacheSize ollamaMaxCacheSize cache))

/-- A `translate_text` result dictionary (`error` is `none` when the key
is absent). -/
structure TranslationDict where
  originalText : String
  translatedText : String
  sourceLanguage : String
  wasTranslated : Bool
  error : Option String
deriving DecidableEq, Repr

/-- Python `str.strip(ch)`: strip every leading/trailing occurrence of the
character. -/
def pyStripChar (ch : Char) (l : List Char) : List Char :=
  ((l.dropWhile (fun c => c == ch)).reverse.dropWhile (fun c => c == ch)).reverse

/-- `re.findall(r'"([^"]+)"', line)`: the non-empty bodies of
non-overlapping quote pairs, scanning left to right. -/
def findQuoted : Nat → List Char → List (List Char)
  | 0, _ => []
  | _, [] => []
  | fuel + 1, c :: rest =>
    if c == '"' then
      let content := rest.takeWhile (fun x => !(x == '"'))
      match rest.drop content.length with
      | '"' :: rest2 =>
        if content.isEmpty then findQuoted fuel rest
        else content :: findQuoted fuel rest2
      | _ => []
    else findQuoted fuel rest

/-- The artifact-removal loop of `_clean_translation` (lines 564-582): the
first listed artifact that occurs in the final fifth of the text cuts the
text there (`artifact_pos > len(text) * 0.8`, in exact rationals:
`5 * pos > 4 * len`); an artifact occurring earlier is skipped. -/
def artifactScan : List (List Char) → List Char → List Char
  | [], t => t
  | a :: rest, t =>
    if containsSub a t then
      match findSubFromAux a t 0 with
      | some pos =>
        if 4 * t.length < 5 * pos then pyStrip (t.take pos)
        else artifactScan rest t
      | none => artifactScan rest t
    else artifactScan rest t

/-- `OllamaService._clean_translation` (lines 550-584). -/
def cleanTranslation (t0 : List Char) : List Char :=
  let t1 := pyStrip t0
  let t2 :=
    if t1.head? == some '"' && t1.getLast? == some '"' then (t1.drop 1).dropLast else t1
  let t3 :=
    if t2.head? == some '\'' && t2.getLast? == some '\'' then (t2.drop 1).dropLast else t2
  let t4 :=
    if "translation:".data.isPrefixOf (pyLower t3) then pyStrip (t3.drop 12) else t3
  let artifacts : List (List Char) :=
    ["\" Provide only".data, " Provide only".data, " Provide ONLY".data, "\" ONLY".data,
     " no explanations".data, " no additional text".data, " without any".data,
     " Translation:".data]
  artifactScan artifacts t4

/-- The quoted-match scan over one `thinking` line (lines 342-353): the
first quote body that differs from the source text, is longer than 5, and
mentions none of the filter words. -/
def thinkingLineQuoted (text : String) (line : List Char) : Option (List Char) :=
  (findQuoted line.length line).find? (fun m =>
    !(m == text.data) && 5 < m.length &&
    !(containsSub "translation".data (pyLower m) || containsSub "translate".data (pyLower m) ||
      containsSub "português".data (pyLower m) || containsSub "english".data (pyLower m)))

/-- The line loop of the `thinking`-field extraction (lines 339-361).
A quoted-match hit updates the running candidate but the loop continues
(its `break` only leaves the inner loop); a `translation:` hit returns at
once (its `break` leaves the outer loop). -/
def thinkingLinesScan (text : String) : List (List Char) → List Char → List Char
  | [], acc => acc
  | line0 :: rest, acc =>
    let line := pyStrip line0
    let lower := pyLower line
    if containsSub "\"".data line &&
        (!(containsSub "translation".data lower) || !(containsSub "translate".data lower)) then
      match thinkingLineQuoted text line with
      | some m => thinkingLinesScan text rest m
      | none => thinkingLinesScan text rest acc
    else if containsSub "translation:".data lower then
      match findSubFromAux "translation:".data line 0 with
      | some pos =>
        let candidate := pyStrip (pyStripChar '"' (pyStrip (line.drop (pos + 12))))
        if !candidate.isEmpty && !(candidate == text.data) then candidate
        else thinkingLinesScan text rest acc
      | none => thinkingLinesScan text rest acc
    else thinkingLinesScan text rest acc

/-- The reversed-sentence fallback of the `thinking` extraction (lines
364-374). -/
def thinkingSentencesScan (text : String) (thinking : List Char) : List Char :=
  let sentences := (splitOnChar '.' thinking).reverse
  match sentences.find? (fun s0 =>
      let s := pyStrip s0
      !s.isEmpty && 10 < s.length &&
      !(containsSub "translation".data (pyLower s)) &&
      !(containsSub "portuguese".data (pyLower s)) &&
      !(s == text.data)) with
  | some s => pyStrip s
  | none => []

/-- The whole `thinking`-field extraction (`translate_text` lines
336-374), producing the candidate translated text (possibly empty). -/
def extractFromThinking (text : String) (thinking : List Char) : List Char :=
  let fromLines := thinkingLinesScan text (splitOnChar '\n' thinking) []
  if fromLines.isEmpty then thinkingSentencesScan text thinking
  else fromLines

/-- `OllamaService.translate_text` (ollama_service.py lines 264-423).
The returned `Bool` records whether `client.chat` was invoked, making
"no re-attempt on a cache hit" expressible. -/
def translateText (md5Hex : String → String) (clientAvailable : Bool) (chat : ChatOutcome)
    (cache : PyDict TranslationDict) (text sourceLang targetLang : String) :
    TranslationDict × PyDict TranslationDict × Bool :=
  let key := getCacheKey md5Hex (sourceLang ++ "_" ++ targetLang ++ "_" ++ text) "translation"
  match dictLookup key cache with
  | some v => (v, cache, false)
  | none =>
    if sourceLang == targetLang then
      let result : TranslationDict := ⟨text, text, sourceLang, false, none⟩
      (result, dictInsert key result (manageCacheSize ollamaMaxCacheSize cache), false)
    else if !clientAvailable then
      (⟨text, text, sourceLang, false, some "Translation service not available"⟩, cache, false)
    else
      match chat with
      | .raised e =>
        -- the outer `except Exception` branch (lines 412-423)
        let result : TranslationDict := ⟨text, text, sourceLang, false, some e⟩
        (result, dictInsert key result (manageCacheSize ollamaMaxCacheSize cache), true)
      | .noMessage =>
        -- `# Fallback if translation fails` (lines 400-410)
        let result : TranslationDict := ⟨text, text, sourceLang, false, some "Translation failed"⟩
        (result, dictInsert key result (manageCacheSize ollamaMaxCacheSize cache), true)
      | .message content0 thinking0 =>
        let content := pyStrip content0.data
        let thinking := pyStrip thinking0.data
        let translated1 :=
          if content.isEmpty && !thinking.isEmpty then extractFromThinking text thinking
          else content
        let translated2 := if !translated1.isEmpty then cleanTranslation translated1 else translated1
        let final : List Char × Bool :=
          if translated2.isEmpty then (text.data, false) else (translated2, true)
        let result : TranslationDict := ⟨text, String.mk final.1, sourceLang, final.2, none⟩
        (result, dictInsert key result (manageCacheSize ollamaMaxCacheSize cache), true)

/-- C9: for the markdown-fenced single-item batch response
` ```json\n[{"sentiment":"positive","confidence":0.9}]\n``` `, the
extraction ladder's fence-stripping step recovers exactly the JSON array,
and the batch call returns Positive with confidence 0.9 — independently of
the individual-processing fallback, which is therefore not consulted. -/
theorem c9_markdown_fenced_batch_response :
    extractJsonFromResponse
        "```json\n[\x7b\"sentiment\":\"positive\",\"confidence\":0.9\x7d]\n```" (some "")
      = "[\x7b\"sentiment\":\"positive\",\"confidence\":0.9\x7d]"
    ∧ ∀ indiv : String → SentimentOutcome,
        batchSentimentApiCall ["Great product!"]
          (.message "```json\n[\x7b\"sentiment\":\"positive\",\"confidence\":0.9\x7d]\n```" "")
          indiv
        = [(SentimentLabel.POSITIVE, (0.9 : ℚ))] := by
  constructor
  · decide
  · intro indiv
    have h : batchSentimentParse
        "```json\n[\x7b\"sentiment\":\"positive\",\"confidence\":0.9\x7d]\n```" (some "") 1
        = some [(SentimentLabel.POSITIVE, mkRat 9 10)] := by decide
    simp only [batchSentimentApiCall, List.length_singleton, h]
    rw [mkRat_decimal_eqs.2.2.2.2.2.1]

/-- The confidence interval of the specification. -/
def confidenceInRange (q : ℚ) : Prop := (0.5 : ℚ) ≤ q ∧ q ≤ (0.95 : ℚ)

/-- The clamp `max(0.5, min(0.95, c))` always lands in the interval. -/
theorem clamp_confidenceInRange (c : ℚ) :
    confidenceInRange (max (mkRat 1 2) (min (mkRat 19 20) c)) := by
  obtain ⟨h05, -, -, -, -, -, h95, -⟩ := mkRat_decimal_eqs
  constructor
  · rw [← h05]; exact le_max_left _ _
  · rw [← h95]
    exact max_le (by rw [Rat.mkRat_eq_div, Rat.mkRat_eq_div]; norm_num) (min_le_left _ _)

/-- The two heuristic-fallback confidences are in the interval. -/
theorem fallbackSentiment_confidenceInRange (text : String) :
    confidenceInRange (fallbackSentiment text).2 := by
  simp only [fallbackSentiment, confidenceInRange]
  split
  · constructor <;> (rw [Rat.mkRat_eq_div]; norm_num)
  · split
    · constructor <;> (rw [Rat.mkRat_eq_div]; norm_num)
    · constructor <;> (rw [Rat.mkRat_eq_div]; norm_num)

/-- Every pair of an inserted dictionary is the new value or an old
pair. -/
theorem dictInsert_mem {α : Type} (k : String) (v : α) (d : PyDict α)
    (p : String × α) (hp : p ∈ dictInsert k v d) : p.2 = v ∨ p ∈ d := by
  unfold dictInsert at hp
  split at hp
  · rcases List.mem_map.mp hp with ⟨q, hq, heq⟩
    by_cases hqk : q.1 == k
    · rw [if_pos hqk] at heq; left; rw [← heq]
    · rw [if_neg hqk] at heq; right; rw [← heq]; exact hq
  · rcases List.mem_append.mp hp with h | h
    · right; exact h
    · left; rw [List.mem_singleton.mp h]

/-- Eviction only removes pairs. -/
theorem manageCacheSize_mem {α : Type} (m : Nat) (d : PyDict α)
    (p : String × α) (hp : p ∈ manageCacheSize m d) : p ∈ d := by
  unfold manageCacheSize at hp
  split at hp
  · exact List.mem_of_mem_drop hp
  · exact hp

/-- A successful lookup returns a stored value. -/
theorem dictLookup_mem {α : Type} (k : String) (d : PyDict α) (v : α)
    (h : dictLookup k d = some v) : ∃ p ∈ d, p.2 = v := by
  unfold dictLookup at h
  cases hfind : d.find? (fun p => p.1 == k) with
  | none => rw [hfind] at h; exact absurd h (by simp)
  | some q =>
    rw [hfind] at h
    exact ⟨q, List.mem_of_find?_eq_some hfind, by simpa using h⟩

/-- A parsed batch item carries a clamped confidence. -/
theorem batchItemOutcome_confidenceInRange (v : JsonValue) (r : SentimentOutcome)
    (h : batchItemOutcome v = some r) : confidenceInRange r.2 := by
  cases v with
  | obj fields =>
    simp only [batchItemOutcome] at h
    split at h
    · exact absurd h (by simp)
    · split at h
      · exact absurd h (by simp)
      · rw [← Option.some_inj.mp h]
        exact clamp_confidenceInRange _
  | null => exact absurd h (by simp [batchItemOutcome])
  | bool b => exact absurd h (by simp [batchItemOutcome])
  | num q => exact absurd h (by simp [batchItemOutcome])
  | str s => exact absurd h (by simp [batchItemOutcome])
  | arr items => exact absurd h (by simp [batchItemOutcome])

/-- All outcomes of a successful `mapM batchItemOutcome` are in range. -/
theorem mapM_batchItemOutcome_confidenceInRange :
    ∀ (items : List JsonValue) (rs : List SentimentOutcome),
      items.mapM batchItemOutcome = some rs → ∀ r ∈ rs, confidenceInRange r.2 := by
  intro items
  induction items with
  | nil =>
    intro rs h r hr
    simp only [List.mapM_nil, Option.pure_def, Option.some_inj] at h
    subst h
    exact absurd hr (List.not_mem_nil r)
  | cons a l ih =>
    intro rs h r hr
    simp only [List.mapM_cons, Option.pure_def, Option.bind_eq_bind, Option.bind_eq_some] at h
    obtain ⟨out, hout, rest, hrest, heq⟩ := h
    rw [Option.some_inj] at heq
    subst heq
    rcases List.mem_cons.mp hr with heq | hmem
    · subst heq; exact batchItemOutcome_confidenceInRange a r hout
    · exact ih rest hrest r hmem

/-- The decode-error fallback confidences are in the interval. -/
theorem confRange_heuristic_pair :
    confidenceInRange (mkRat 75 100) ∧ confidenceInRange (mkRat 65 100) := by
  constructor <;> (constructor <;> (rw [Rat.mkRat_eq_div]; norm_num))

/-- C2 (amended): every outcome produced by the model gateway — the
single-text `analyze_sentiment` on any path (cache hit over an in-range
cache, JSON parse with clamping, decode-error heuristic, no-client or
exception fallback, auth retry) and the batch parse of
`_batch_sentiment_api_call` — carries a confidence in [0.5, 0.95], and
`analyze_sentiment` preserves the in-range property of the cache.  (By
`c2_counterexample_worker_failure_zero`, the orchestrator's
worker-exception downgrade is the one exception the original claim
overlooked.) -/
theorem c2_confidence_clamped_in_gateway :
    (∀ (md5Hex : String → String) (clientAvailable : Bool) (chat1 : ChatOutcome)
        (clientAfterReinit : Bool) (chat2 : ChatOutcome)
        (cache : PyDict SentimentOutcome) (text : String),
      (∀ p ∈ cache, confidenceInRange p.2.2) →
        confidenceInRange
          (analyzeSentiment md5Hex clientAvailable chat1 clientAfterReinit chat2 cache text).1.2
        ∧ ∀ p ∈ (analyzeSentiment md5Hex clientAvailable chat1 clientAfterReinit chat2
            cache text).2, confidenceInRange p.2.2)
    ∧ (∀ (content : String) (thinking : Option String) (n : Nat)
          (results : List SentimentOutcome),
        batchSentimentParse content thinking n = some results →
          ∀ r ∈ results, confidenceInRange r.2) := by
  constructor
  · intro md5Hex clientAvailable chat1 clientAfterReinit chat2 cache text hcache
    have hins : ∀ (key : String) (result : SentimentOutcome),
        confidenceInRange result.2 →
        ∀ p ∈ dictInsert key result (manageCacheSize ollamaMaxCacheSize cache),
          confidenceInRange p.2.2 := by
      intro key result hres p hp
      rcases dictInsert_mem key result _ p hp with h | h
      · rw [h]; exact hres
      · exact hcache p (manageCacheSize_mem _ _ p h)
    simp only [analyzeSentiment]
    split
    · next v hv =>
      obtain ⟨p, hp, hpv⟩ := dictLookup_mem _ _ _ hv
      exact ⟨hpv ▸ hcache p hp, hcache⟩
    · split
      · exact ⟨fallbackSentiment_confidenceInRange text, hcache⟩
      · split
        · exact ⟨fallbackSentiment_confidenceInRange text, hcache⟩
        · exact ⟨fallbackSentiment_confidenceInRange text,
            hins _ _ (fallbackSentiment_confidenceInRange text)⟩
        · next rawContent _ =>
          split
          · split
            · exact ⟨fallbackSentiment_confidenceInRange text, hcache⟩
            · split
              · exact ⟨fallbackSentiment_confidenceInRange text, hcache⟩
              · exact ⟨clamp_confidenceInRange _, hins _ _ (clamp_confidenceInRange _)⟩
          · exact ⟨fallbackSentiment_confidenceInRange text, hcache⟩
          · have hres : confidenceInRange
                (if containsSub "positive".data (pyLower (pyStrip rawContent.data)) then
                    (SentimentLabel.POSITIVE, mkRat 75 100)
                  else if containsSub "negative".data (pyLower (pyStrip rawContent.data)) then
                    (SentimentLabel.NEGATIVE, mkRat 75 100)
                  else (SentimentLabel.NEUTRAL, mkRat 65 100)).2 := by
              split
              · exact confRange_heuristic_pair.1
              · split
                · exact confRange_heuristic_pair.1
                · exact confRange_heuristic_pair.2
            exact ⟨hres, hins _ _ hres⟩
  · intro content thinking n results h r hr
    simp only [batchSentimentParse] at h
    split at h
    · exact absurd h (by simp)
    · split at h
      · next items _ =>
        split at h
        · next rs0 hmapM =>
          rw [Option.some_inj] at h
          subst h
          have hmem := List.mem_of_mem_take hr
          rcases List.mem_append.mp hmem with hm | hm
          · exact mapM_batchItemOutcome_confidenceInRange items rs0 hmapM r hm
          · rw [List.eq_of_mem_replicate hm]
            exact ⟨by norm_num [Rat.mkRat_eq_div], by norm_num [Rat.mkRat_eq_div]⟩
        · exact absurd h (by simp)
      · exact absurd h (by simp)

/-- C2 witness: a mocked model reporting confidence -5 is clamped into
the interval (the outcome is Positive at the lower clamp 0.5), with an
empty initial cache discharging the cache hypothesis. -/
theorem c2_confidence_clamped_witness :
    confidenceInRange
      (analyzeSentiment id true
        (.message "\x7b\"sentiment\": \"positive\", \"confidence\": -5\x7d" "") true .noMessage
        [] "x").1.2
    ∧ (analyzeSentiment id true
        (.message "\x7b\"sentiment\": \"positive\", \"confidence\": -5\x7d" "") true .noMessage
        [] "x").1 = (SentimentLabel.POSITIVE, mkRat 1 2) :=
  ⟨(c2_confidence_clamped_in_gateway.1 id true
      (.message "\x7b\"sentiment\": \"positive\", \"confidence\": -5\x7d" "") true .noMessage
      [] "x" (by simp)).1,
   by decide⟩

/-! ### The optimized batch orchestrator
(`app/services/optimized_sentiment_service.py`) -/

/-- Split a list into consecutive chunks of `n` (the orchestrator's
sub-batches); fuel makes the recursion structural and equals the input
length at call sites, which suffices for every `n ≥ 1`. -/
def chunkListFuel (n : Nat) : Nat → List α → List (List α)
  | 0, _ => []
  | _ + 1, [] => []
  | fuel + 1, x :: xs => (x :: xs).take n :: chunkListFuel n fuel ((x :: xs).drop n)

/-- The orchestrator's sub-batch size, `self.batch_size = 16`. -/
def orchestratorBatchSize : Nat := 16

/-- The cache key written by the orchestrator:
`f"sentiment_{language}_{hash(text)}"` with Python's builtin `hash`
injected as `pyHash`. -/
def orchestratorKey (pyHash : String → Int) (language text : String) : String :=
  "sentiment_" ++ language ++ "_" ++ toString (pyHash text)

/-- `OptimizedSentimentService._process_uncached_batch`
(optimized_sentiment_service.py lines 299-343).  `worker` is one
`self.ollama_service.analyze_sentiment` submission: `.error` models a
raised exception, answered by the `(SentimentLabel.NEUTRAL, 0.0)`
downgrade; `.ok` results are written through to the sentiment cache
(without `_manage_cache_size`).  Completion order is modelled as
submission order — result slots are positional either way. -/
def processUncachedBatch (pyHash : String → Int)
    (worker : String → Except String SentimentOutcome)
    (texts languages : List String) (cache : PyDict SentimentOutcome) :
    List SentimentOutcome × PyDict SentimentOutcome :=
  let batchSize := min orchestratorBatchSize texts.length
  let chunks := chunkListFuel batchSize texts.length (texts.zip languages)
  chunks.foldl
    (fun acc chunk =>
      chunk.foldl
        (fun (acc2 : List SentimentOutcome × PyDict SentimentOutcome) tl =>
          match worker tl.1 with
          | .ok result =>
            (acc2.1 ++ [result],
             dictInsert (orchestratorKey pyHash tl.2 tl.1) result acc2.2)
          | .error _ => (acc2.1 ++ [(SentimentLabel.NEUTRAL, mkRat 0 1)], acc2.2))
        acc)
    ([], cache)

/-- The per-unit outcome the batch loop records: the worker's result, or
the Neutral/zero downgrade when it raised. -/
def workerOutcome (worker : String → Except String SentimentOutcome) (t : String) :
    SentimentOutcome :=
  match worker t with
  | .ok v => v
  | .error _ => (SentimentLabel.NEUTRAL, mkRat 0 1)

/-- The inner sub-batch fold appends exactly one outcome per unit. -/
theorem chunkFold_fst (pyHash : String → Int)
    (worker : String → Except String SentimentOutcome) :
    ∀ (chunk : List (String × String)) (acc : List SentimentOutcome × PyDict SentimentOutcome),
      (chunk.foldl
        (fun (acc2 : List SentimentOutcome × PyDict SentimentOutcome) tl =>
          match worker tl.1 with
          | .ok result =>
            (acc2.1 ++ [result],
             dictInsert (orchestratorKey pyHash tl.2 tl.1) result acc2.2)
          | .error _ => (acc2.1 ++ [(SentimentLabel.NEUTRAL, mkRat 0 1)], acc2.2))
        acc).1
      = acc.1 ++ chunk.map (fun tl => workerOutcome worker tl.1) := by
  intro chunk
  induction chunk with
  | nil => intro acc; simp
  | cons tl rest ih =>
    intro acc
    rw [List.foldl_cons, List.map_cons, ih]
    unfold workerOutcome
    cases worker tl.1 <;> simp

/-- The outer fold concatenates the sub-batch outcome blocks. -/
theorem chunksFold_fst (pyHash : String → Int)
    (worker : String → Except String SentimentOutcome) :
    ∀ (chunks : List (List (String × String)))
      (acc : List SentimentOutcome × PyDict SentimentOutcome),
      (chunks.foldl
        (fun acc chunk =>
          chunk.foldl
            (fun (acc2 : List SentimentOutcome × PyDict SentimentOutcome) tl =>
              match worker tl.1 with
              | .ok result =>
                (acc2.1 ++ [result],
                 dictInsert (orchestratorKey pyHash tl.2 tl.1) result acc2.2)
              | .error _ => (acc2.1 ++ [(SentimentLabel.NEUTRAL, mkRat 0 1)], acc2.2))
            acc)
        acc).1
      = acc.1 ++ (chunks.map (fun chunk =>
          chunk.map (fun tl => workerOutcome worker tl.1))).flatten := by
  intro chunks
  induction chunks with
  | nil => intro acc; simp
  | cons chunk rest ih =>
    intro acc
    rw [List.foldl_cons, ih, chunkFold_fst pyHash worker chunk acc]
    simp

/-- Chunking splits the list without loss. -/
theorem chunkListFuel_join (n : Nat) (hn : 1 ≤ n) :
    ∀ (fuel : Nat) (l : List α), l.length ≤ fuel → (chunkListFuel n fuel l).flatten = l := by
  intro fuel
  induction fuel with
  | zero =>
    intro l hl
    rw [Nat.le_zero] at hl
    rw [List.eq_nil_of_length_eq_zero hl]
    simp [chunkListFuel]
  | succ fuel ih =>
    intro l hl
    cases l with
    | nil => simp [chunkListFuel]
    | cons x xs =>
      simp only [chunkListFuel, List.flatten_cons]
      rw [ih ((x :: xs).drop n) (by simp only [List.length_drop, List.length_cons] at *; omega)]
      exact List.take_append_drop n (x :: xs)

/-- C6: in `_process_uncached_batch`, a raised worker call downgrades only
its own unit to `(Neutral, 0.0)`: position by position, the result list is
the worker's outcome for that unit's text, with the downgrade exactly at
the raising units — so siblings in the same sub-batch and the remaining
sub-batches still run and the batch returns a full-length result list. -/
theorem c6_worker_failure_isolated (pyHash : String → Int)
    (worker : String → Except String SentimentOutcome)
    (texts languages : List String) (cache : PyDict SentimentOutcome)
    (hlen : texts.length ≤ languages.length) :
    (processUncachedBatch pyHash worker texts languages cache).1
      = texts.map (workerOutcome worker)
    ∧ (processUncachedBatch pyHash worker texts languages cache).1.length
      = texts.length := by
  have hjoin : ∀ (chunks : List (List (String × String)))
      (f : String × String → SentimentOutcome),
      (chunks.map (fun chunk => chunk.map f)).flatten = chunks.flatten.map f := by
    intro chunks f
    induction chunks with
    | nil => simp
    | cons c rest ih => simp only [List.map_cons, List.flatten_cons, ih, List.map_append]
  have hmain : (processUncachedBatch pyHash worker texts languages cache).1
      = texts.map (workerOutcome worker) := by
    simp only [processUncachedBatch]
    rw [chunksFold_fst pyHash worker, hjoin, List.nil_append]
    cases texts with
    | nil => simp [chunkListFuel]
    | cons t ts =>
      rw [chunkListFuel_join (min orchestratorBatchSize (t :: ts).length)
        (by simp only [orchestratorBatchSize, List.length_cons]; omega)
        (t :: ts).length ((t :: ts).zip languages)
        (by rw [List.length_zip]; omega)]
      show ((t :: ts).zip languages).map (workerOutcome worker ∘ Prod.fst)
        = (t :: ts).map (workerOutcome worker)
      rw [← List.map_map, List.map_fst_zip (t :: ts) languages hlen]
  exact ⟨hmain, by rw [hmain, List.length_map]⟩

/-- C6 witness: a three-text sub-batch whose middle worker raises keeps
the siblings' outcomes and downgrades only position 1. -/
theorem c6_worker_failure_isolated_witness :
    (3 : Nat) ≤ 3
    ∧ (processUncachedBatch (fun _ => 0)
        (fun t => if t == "b" then .error "boom" else .ok (SentimentLabel.POSITIVE, mkRat 7 10))
        ["a", "b", "c"] ["en", "en", "en"] []).1
      = [(SentimentLabel.POSITIVE, mkRat 7 10), (SentimentLabel.NEUTRAL, mkRat 0 1),
         (SentimentLabel.POSITIVE, mkRat 7 10)] :=
  ⟨le_refl 3,
   by
    rw [(c6_worker_failure_isolated (fun _ => 0)
      (fun t => if t == "b" then .error "boom" else .ok (SentimentLabel.POSITIVE, mkRat 7 10))
      ["a", "b", "c"] ["en", "en", "en"] [] (by decide)).1]
    decide⟩

/-- C2 (counterexample): the claim "the confidence value lies in
[0.5, 0.95] ... regardless of which fallback path produced the outcome"
fails on the worker-exception path of `_process_uncached_batch`
(optimized_sentiment_service.py line 337): a raising worker yields the
outcome `(Neutral, 0.0)`, and 0.0 is outside the interval. -/
theorem c2_counterexample_worker_failure_zero :
    (processUncachedBatch (fun _ => 0) (fun _ => .error "connection reset")
        ["some text"] ["en"] []).1
      = [(SentimentLabel.NEUTRAL, (0 : ℚ))]
    ∧ ¬ confidenceInRange (0 : ℚ) := by
  constructor
  · decide
  · intro h
    have := h.1
    norm_num at this

/-- `TokenizationService.optimize_text_for_analysis` (tokenization_service
lines 59-82): cache check under `f"optimize_{language}:{md5[:16]}"`
(`tokHash` injects the truncated digest), the pipeline, and
`_cache_result` (which evicts the oldest 100 entries once 2000 is
reached, then inserts). -/
def optimizeTextForAnalysis (tokHash : String → String) (tokCache : PyDict String)
    (text language : String) : String × PyDict String :=
  let key := "optimize_" ++ language ++ ":" ++ tokHash text
  match dictLookup key tokCache with
  | some v => (v, tokCache)
  | none =>
    let optimized := String.mk (applyTokenizationPipeline text.data language)
    let tokCache2 := if tokMaxCacheSize ≤ tokCache.length then tokCache.drop 100 else tokCache
    (optimized, dictInsert key optimized tokCache2)

/-- `OptimizedSentimentService.analyze_sentiment_optimized`
(optimized_sentiment_service.py lines 109-146): optimize the text, check
the sentiment cache under `f"sentiment_{language}_{hash(optimized)}"`, on
a miss call `OllamaService.analyze_sentiment`, then write the result back
under the orchestrator key — without `_manage_cache_size`. -/
def analyzeSentimentOptimized (tokHash md5Hex : String → String) (pyHash : String → Int)
    (clientAvailable : Bool) (chat1 : ChatOutcome) (clientAfterReinit : Bool)
    (chat2 : ChatOutcome) (tokCache : PyDict String) (sentCache : PyDict SentimentOutcome)
    (text language : String) :
    SentimentOutcome × PyDict String × PyDict SentimentOutcome :=
  let opt := optimizeTextForAnalysis tokHash tokCache text language
  let cacheKey := orchestratorKey pyHash language opt.1
  match dictLookup cacheKey sentCache with
  | some v => (v, opt.2, sentCache)
  | none =>
    let res := analyzeSentiment md5Hex clientAvailable chat1 clientAfterReinit chat2
      sentCache opt.1
    (res.1, opt.2, dictInsert cacheKey res.1 res.2)

/-- `TokenizationService.batch_optimize_texts`: optimize each text with
its language (the thread-pool execution is modelled in submission order;
each item's optimization is independent apart from the shared cache). -/
def batchOptimizeTexts (tokHash : String → String) (tokCache : PyDict String)
    (texts languages : List String) : List String × PyDict String :=
  (texts.zip languages).foldl
    (fun (acc : List String × PyDict String) tl =>
      let r := optimizeTextForAnalysis tokHash acc.2 tl.1 tl.2
      (acc.1 ++ [r.1], r.2))
    ([], tokCache)

/-- `OptimizedSentimentService.batch_analyze_optimized`
(optimized_sentiment_service.py lines 148-207).  Returns `.error` for a
raised exception: with an empty input list the final log statement
computes `processing_time/len(texts)` and raises `ZeroDivisionError`
before the function can return.  Result slots are `Option`-valued exactly
like the pre-allocated `[None] * len(texts)` array. -/
def batchAnalyzeOptimized (tokHash : String → String) (pyHash : String → Int)
    (worker : String → Except String SentimentOutcome)
    (tokCache : PyDict String) (sentCache : PyDict SentimentOutcome)
    (texts : List String) (languages0 : Option (List String)) :
    Except String (List (Option SentimentOutcome) × PyDict String × PyDict SentimentOutcome) :=
  let languages :=
    match languages0 with
    | none => List.replicate texts.length "en"
    | some ls => if ls.isEmpty then List.replicate texts.length "en" else ls
  let opt := batchOptimizeTexts tokHash tokCache texts languages
  let optimizedTexts := opt.1
  -- Step 2: partition indices by cache state of the orchestrator key
  let partition :=
    ((List.range texts.length).zip (optimizedTexts.zip languages)).foldl
      (fun (acc : List (Nat × SentimentOutcome) × List Nat) p =>
        match dictLookup (orchestratorKey pyHash p.2.2 p.2.1) sentCache with
        | some v => (acc.1 ++ [(p.1, v)], acc.2)
        | none => (acc.1, acc.2 ++ [p.1]))
      ([], [])
  let cachedResults := partition.1
  let uncachedIndices := partition.2
  -- Step 3: pre-allocated result slots, cached results filled in
  let results0 : List (Option SentimentOutcome) := List.replicate texts.length none
  let results1 := cachedResults.foldl (fun rs p => rs.set p.1 (some p.2)) results0
  -- uncached texts processed in parallel sub-batches
  let uncachedRun :=
    if uncachedIndices.isEmpty then (([] : List SentimentOutcome), sentCache)
    else
      processUncachedBatch pyHash worker
        (uncachedIndices.map (fun i => optimizedTexts.getD i ""))
        (uncachedIndices.map (fun i => languages.getD i ""))
        sentCache
  let results2 := (uncachedIndices.zip uncachedRun.1).foldl
    (fun rs p => rs.set p.1 (some p.2)) results1
  -- the final log line divides by len(texts)
  if texts.length = 0 then .error "ZeroDivisionError: float division by zero"
  else .ok (results2, opt.2, uncachedRun.2)

/-- C1 (code bug): `batch_analyze_optimized` raises `ZeroDivisionError` on
the empty input list — the completion log line computes
`processing_time/len(texts)` — so "for every input list of texts ... a
result list of exactly the same length" fails at `texts = []`, where the
claimed result is the empty list. -/
theorem c1_empty_batch_raises_zero_division :
    batchAnalyzeOptimized (fun _ => "h") (fun _ => 0)
        (fun _ => .ok (SentimentLabel.NEUTRAL, mkRat 6 10)) [] [] [] none
      = .error "ZeroDivisionError: float division by zero" := by
  rfl

/-- Missing key, characterised by membership. -/
theorem dictLookup_eq_none_iff {α : Type} (k : String) (d : PyDict α) :
    dictLookup k d = none ↔ ∀ p ∈ d, ¬ (p.1 = k) := by
  unfold dictLookup
  cases hfind : d.find? (fun p => p.1 == k) with
  | none =>
    constructor
    · intro _ p hp
      have := List.find?_eq_none.mp hfind p hp
      simpa using this
    · intro _
      rfl
  | some q =>
    constructor
    · intro h
      exact absurd h (by simp)
    · intro hall
      exfalso
      exact hall q (List.mem_of_find?_eq_some hfind)
        (by simpa using List.find?_some hfind)

/-- Every pair of an inserted dictionary has the new key or is an old
pair. -/
theorem dictInsert_mem_key {α : Type} (k : String) (v : α) (d : PyDict α)
    (p : String × α) (hp : p ∈ dictInsert k v d) : p.1 = k ∨ p ∈ d := by
  unfold dictInsert at hp
  split at hp
  · rcases List.mem_map.mp hp with ⟨q, hq, heq⟩
    by_cases hqk : q.1 == k
    · rw [if_pos hqk] at heq; left; rw [← heq]
    · rw [if_neg hqk] at heq; right; rw [← heq]; exact hq
  · rcases List.mem_append.mp hp with h | h
    · right; exact h
    · left; rw [List.mem_singleton.mp h]

/-- Inserting a fresh key appends: the size grows by exactly one. -/
theorem dictInsert_length_of_lookup_none {α : Type} (k : String) (v : α) (d : PyDict α)
    (h : dictLookup k d = none) : (dictInsert k v d).length = d.length + 1 := by
  have hmem := (dictLookup_eq_none_iff k d).mp h
  unfold dictInsert
  rw [if_neg]
  · simp
  · intro hany
    rcases List.any_eq_true.mp hany with ⟨p, hp, hpk⟩
    exact hmem p hp (by simpa using hpk)

/-- A key missing from a dictionary is still missing after inserting a
different key. -/
theorem dictLookup_none_insert_ne {α : Type} (k k' : String) (v : α) (d : PyDict α)
    (hne : ¬ (k' = k)) (h : dictLookup k d = none) :
    dictLookup k (dictInsert k' v d) = none := by
  rw [dictLookup_eq_none_iff] at h ⊢
  intro p hp
  rcases dictInsert_mem_key k' v d p hp with heq | hmem
  · rw [heq]; exact hne
  · exact h p hmem

/-- With no client, `analyze_sentiment` leaves its cache untouched (both
the cache-hit return and the no-client fallback return the cache
unchanged). -/
theorem analyzeSentiment_cache_of_no_client (md5Hex : String → String)
    (chat1 : ChatOutcome) (clientAfterReinit : Bool) (chat2 : ChatOutcome)
    (cache : PyDict SentimentOutcome) (text : String) :
    (analyzeSentiment md5Hex false chat1 clientAfterReinit chat2 cache text).2 = cache := by
  simp only [analyzeSentiment]
  split
  · rfl
  · simp

/-- One orchestrator call of the C3 scenario: `analyze_sentiment_optimized`
for the fixed text "t" with a given language tag, with the remote client
unavailable and constant injected hashes. -/
def c3Step (st : PyDict String × PyDict SentimentOutcome) (lang : String) :
    PyDict String × PyDict SentimentOutcome :=
  let r := analyzeSentimentOptimized (fun _ => "h") (fun _ => "h") (fun _ => 0)
    false .noMessage false .noMessage st.1 st.2 "t" lang
  (r.2.1, r.2.2)

/-- The sentiment cache after a sequence of such calls, starting from
empty caches. -/
def c3Run (langs : List String) : PyDict SentimentOutcome :=
  (langs.foldl c3Step ([], [])).2

/-- The orchestrator key such a call writes (the constant `pyHash` makes
it independent of the optimized text). -/
def c3Key (lang : String) : String :=
  "sentiment_" ++ lang ++ "_" ++ toString (0 : Int)

/-- On a sentiment-cache miss, the C3 step inserts exactly one entry under
its language's orchestrator key. -/
theorem c3Step_snd (st : PyDict String × PyDict SentimentOutcome) (lang : String)
    (hsent : dictLookup (c3Key lang) st.2 = none) :
    ∃ v, (c3Step st lang).2 = dictInsert (c3Key lang) v st.2 := by
  simp only [c3Step, analyzeSentimentOptimized, orchestratorKey]
  have hkey : ("sentiment_" ++ lang ++ "_" ++ toString ((fun (_ : String) => (0 : Int))
      (optimizeTextForAnalysis (fun _ => "h") st.1 "t" lang).1)) = c3Key lang := rfl
  rw [hkey, hsent]
  exact ⟨_, by rw [analyzeSentiment_cache_of_no_client]⟩

/-- Folding C3 steps over languages with pairwise-distinct, initially
missing orchestrator keys grows the sentiment cache by one entry per
call — no eviction ever runs. -/
theorem c3_foldl_length :
    ∀ (langs : List String) (st : PyDict String × PyDict SentimentOutcome),
      (∀ l ∈ langs, dictLookup (c3Key l) st.2 = none) →
      langs.Pairwise (fun a b => ¬ (c3Key a = c3Key b)) →
      ((langs.foldl c3Step st).2).length = st.2.length + langs.length := by
  intro langs
  induction langs with
  | nil => intro st _ _; simp
  | cons l0 rest ih =>
    intro st hsent hpair
    rw [List.foldl_cons]
    obtain ⟨v, hv⟩ := c3Step_snd st l0 (hsent l0 (List.mem_cons_self l0 rest))
    have hpair' := List.pairwise_cons.mp hpair
    have hrest : ∀ l ∈ rest, dictLookup (c3Key l) (c3Step st l0).2 = none := by
      intro l hl
      rw [hv]
      exact dictLookup_none_insert_ne _ _ _ _
        (hpair'.1 l hl)
        (hsent l (List.mem_cons_of_mem l0 hl))
    have := ih (c3Step st l0) hrest hpair'.2
    rw [this]
    have hgrow : ((c3Step st l0).2).length = st.2.length + 1 := by
      rw [hv]
      exact dictInsert_length_of_lookup_none _ _ _ (hsent l0 (List.mem_cons_self l0 rest))
    rw [hgrow]
    simp only [List.length_cons]
    omega

/-- The 1001 pairwise-distinct language tags of the counterexample. -/
def c3Langs : List String :=
  (List.range 1001).map (fun i => String.mk (List.replicate i 'a'))

/-- Distinct-length languages give distinct orchestrator keys. -/
theorem c3Key_ne_of_length_ne (l1 l2 : String) (h : ¬ (l1.length = l2.length)) :
    ¬ (c3Key l1 = c3Key l2) := by
  intro he
  apply h
  have hlen := congrArg String.length he
  simp only [c3Key, String.length_append] at hlen
  omega

/-- With fresh, pairwise-distinct orchestrator keys the run grows the
(initially empty) sentiment cache to exactly one entry per language. -/
theorem c3Run_length (langs : List String)
    (hfresh : ∀ l ∈ langs,
      dictLookup (c3Key l) (([], []) : PyDict String × PyDict SentimentOutcome).2 = none)
    (hpair : langs.Pairwise (fun a b => ¬ (c3Key a = c3Key b))) :
    (c3Run langs).length = langs.length := by
  unfold c3Run
  rw [c3_foldl_length langs (([], []) : PyDict String × PyDict SentimentOutcome) hfresh hpair]
  simp

/-- C3 (counterexample): the sentiment cache exceeds its configured bound
of 1000 entries.  `analyze_sentiment_optimized` inserts under its
orchestrator key without ever calling `_manage_cache_size`
(optimized_sentiment_service.py line 138), so 1001 calls for the same
text under 1001 distinct language tags (remote client unavailable, so the
Ollama-side paths insert nothing) leave 1001 entries. -/
theorem c3_counterexample_unbounded_growth :
    ollamaMaxCacheSize < (c3Run c3Langs).length := by
  have hfresh : ∀ l ∈ c3Langs,
      dictLookup (c3Key l) (([], []) : PyDict String × PyDict SentimentOutcome).2 = none := by
    intro l _
    rfl
  have hpair : c3Langs.Pairwise (fun a b => ¬ (c3Key a = c3Key b)) := by
    unfold c3Langs
    rw [List.pairwise_map]
    have hr : (List.range 1001).Pairwise (· < ·) := List.pairwise_lt_range 1001
    refine hr.imp ?_
    intro a b hab
    apply c3Key_ne_of_length_ne
    intro hl
    simp only [String.length, List.length_replicate] at hl
    omega
  rw [c3Run_length c3Langs hfresh hpair]
  have hcount : c3Langs.length = 1001 := by
    unfold c3Langs
    rw [List.length_map, List.length_range]
  rw [hcount]
  unfold ollamaMaxCacheSize
  omega

/-- Insertion grows a dictionary by at most one entry. -/
theorem dictInsert_length_le {α : Type} (k : String) (v : α) (d : PyDict α) :
    (dictInsert k v d).length ≤ d.length + 1 := by
  unfold dictInsert
  split
  · rw [List.length_map]
    omega
  · rw [List.length_append]
    simp

/-- C3 (amended): insertions routed through `_manage_cache_size` — i.e.
all of `OllamaService`'s own cache writes — keep a cache within the
configured bound of 1000 entries, and when the bound is reached the
eviction removes exactly the oldest `1000 // 10 = 100` entries in
insertion order before inserting.  (By
`c3_counterexample_unbounded_growth`, the orchestrator's direct writes
bypass this bound, so the original "after any public operation" claim
fails.) -/
theorem c3_managed_insert_respects_bound :
    (∀ (α : Type) (d : PyDict α) (k : String) (v : α),
      d.length ≤ ollamaMaxCacheSize →
        (dictInsert k v (manageCacheSize ollamaMaxCacheSize d)).length ≤ ollamaMaxCacheSize)
    ∧ (∀ (α : Type) (d : PyDict α), ollamaMaxCacheSize ≤ d.length →
        manageCacheSize ollamaMaxCacheSize d = d.drop (ollamaMaxCacheSize / 10)) := by
  constructor
  · intro α d k v hd
    unfold manageCacheSize ollamaMaxCacheSize at *
    split
    · have hins := dictInsert_length_le k v (d.drop (1000 / 10))
      rw [List.length_drop] at hins
      omega
    · have hins := dictInsert_length_le k v d
      omega
  · intro α d hd
    unfold manageCacheSize
    rw [if_pos hd]

/-- C3 witness: one managed insertion into a full-to-capacity cache stays
within the bound. -/
theorem c3_managed_insert_respects_bound_witness :
    (List.replicate 1000 ("k", (SentimentLabel.NEUTRAL, mkRat 6 10))).length
        ≤ ollamaMaxCacheSize
    ∧ (dictInsert "fresh" (SentimentLabel.POSITIVE, mkRat 7 10)
        (manageCacheSize ollamaMaxCacheSize
          (List.replicate 1000 ("k", (SentimentLabel.NEUTRAL, mkRat 6 10))))).length
        ≤ ollamaMaxCacheSize :=
  ⟨by rw [List.length_replicate]; decide,
   c3_managed_insert_respects_bound.1 SentimentOutcome _ "fresh"
     (SentimentLabel.POSITIVE, mkRat 7 10) (by rw [List.length_replicate]; decide)⟩

/-- Updating an existing key makes it findable with the new value. -/
theorem find?_update_self {α : Type} (k : String) (v : α) :
    ∀ d : PyDict α, d.any (fun p => p.1 == k) = true →
      (d.map (fun p => if p.1 == k then (k, v) else p)).find? (fun p => p.1 == k)
        = some (k, v) := by
  intro d
  induction d with
  | nil => intro h; simp at h
  | cons p rest ih =>
    intro h
    simp only [List.map_cons]
    by_cases hp : p.1 == k
    · rw [if_pos hp, List.find?_cons_of_pos]
      simp
    · rw [if_neg hp, List.find?_cons_of_neg]
      · apply ih
        simpa [hp] using h
      · simpa using hp

/-- Appending a fresh key makes it findable. -/
theorem find?_append_self {α : Type} (k : String) (v : α) :
    ∀ d : PyDict α, d.any (fun p => p.1 == k) = false →
      (d ++ [(k, v)]).find? (fun p => p.1 == k) = some (k, v) := by
  intro d
  induction d with
  | nil =>
    intro _
    rw [List.nil_append, List.find?_cons_of_pos]
    simp
  | cons p rest ih =>
    intro h
    simp only [List.any_cons, Bool.or_eq_false_iff] at h
    rw [List.cons_append, List.find?_cons_of_neg]
    · exact ih h.2
    · simp [h.1]

/-- After `d[k] = v`, looking up `k` yields `v`. -/
theorem dictLookup_dictInsert_self {α : Type} (k : String) (v : α) (d : PyDict α) :
    dictLookup k (dictInsert k v d) = some v := by
  unfold dictInsert
  split
  · next hany =>
    unfold dictLookup
    rw [find?_update_self k v d hany]
    rfl
  · next hany =>
    unfold dictLookup
    rw [find?_append_self k v d (by rwa [Bool.not_eq_true] at hany)]
    rfl

/-- C10: when `translate_text` hits its exception handler, the failure
dictionary (original text as translation, `was_translated = False`, the
exception message as `error`) is returned *and* cached under the very key
a successful translation would use, so any later call for the same
`(text, source, target)` — whatever the client state or model response
would have been — returns the cached failure without invoking the model,
for as long as the entry survives. -/
theorem c10_translation_failure_cached (md5Hex : String → String)
    (cache : PyDict TranslationDict) (text sourceLang targetLang e : String)
    (clientAvailable2 : Bool) (chat2 : ChatOutcome)
    (hmiss : dictLookup
      (getCacheKey md5Hex (sourceLang ++ "_" ++ targetLang ++ "_" ++ text) "translation")
      cache = none)
    (hlang : ¬ (sourceLang = targetLang)) :
    (translateText md5Hex true (.raised e) cache text sourceLang targetLang).1
        = ⟨text, text, sourceLang, false, some e⟩
    ∧ dictLookup
        (getCacheKey md5Hex (sourceLang ++ "_" ++ targetLang ++ "_" ++ text) "translation")
        (translateText md5Hex true (.raised e) cache text sourceLang targetLang).2.1
      = some ⟨text, text, sourceLang, false, some e⟩
    ∧ translateText md5Hex clientAvailable2 chat2
        (translateText md5Hex true (.raised e) cache text sourceLang targetLang).2.1
        text sourceLang targetLang
      = (⟨text, text, sourceLang, false, some e⟩,
         (translateText md5Hex true (.raised e) cache text sourceLang targetLang).2.1,
         false) := by
  have hbeq : (sourceLang == targetLang) = false := by
    simpa using hlang
  have hstep : translateText md5Hex true (.raised e) cache text sourceLang targetLang
      = (⟨text, text, sourceLang, false, some e⟩,
         dictInsert
           (getCacheKey md5Hex (sourceLang ++ "_" ++ targetLang ++ "_" ++ text) "translation")
           ⟨text, text, sourceLang, false, some e⟩
           (manageCacheSize ollamaMaxCacheSize cache),
         true) := by
    simp only [translateText, hmiss, hbeq, Bool.false_eq_true, if_false, Bool.not_true]
  have hfound := dictLookup_dictInsert_self
    (getCacheKey md5Hex (sourceLang ++ "_" ++ targetLang ++ "_" ++ text) "translation")
    (⟨text, text, sourceLang, false, some e⟩ : TranslationDict)
    (manageCacheSize ollamaMaxCacheSize cache)
  refine ⟨by rw [hstep], ?_, ?_⟩
  · rw [hstep]
    exact hfound
  · rw [hstep]
    simp only [translateText, hfound]

/-- C10 witness: a concrete raised translation ("boom" for "hola",
es→en) is cached and served from the cache on the repeat call. -/
theorem c10_translation_failure_cached_witness :
    dictLookup (getCacheKey id ("es" ++ "_" ++ "en" ++ "_" ++ "hola") "translation")
        ([] : PyDict TranslationDict) = none
    ∧ ¬ (("es" : String) = "en")
    ∧ translateText id true (.noMessage)
        (translateText id true (.raised "boom") [] "hola" "es" "en").2.1 "hola" "es" "en"
      = (⟨"hola", "hola", "es", false, some "boom"⟩,
         (translateText id true (.raised "boom") [] "hola" "es" "en").2.1,
         false) :=
  ⟨rfl, by decide,
   (c10_translation_failure_cached id [] "hola" "es" "en" "boom" true .noMessage rfl
     (by decide)).2.2⟩

/-! ### The duplicate-text batch under worker interleavings (claim C4) -/

/-- Progress of one worker task: the `analyze_sentiment` body is split at
its two shared-cache touchpoints — the initial cache lookup and the
remote call followed by the cache write-back. -/
inductive TaskPhase : Type
  | notStarted
  | missed
  | done (outcome : SentimentOutcome)
deriving DecidableEq, Repr

/-- What `analyze_sentiment`'s post-lookup body does for a text: the JSON
parse, heuristic-decode and no-message paths return an outcome and cache
it (`cachingResult`), while the no-client and chat-exception fallbacks
return an outcome without caching (`nonCachingResult`).  Either way a
remote call was attempted. -/
inductive RemoteResult : Type
  | cachingResult (o : SentimentOutcome)
  | nonCachingResult (o : SentimentOutcome)
deriving Repr

/-- Shared state of the worker pool: the sentiment cache, the log of
remote calls (texts, in call order), and each task's phase. -/
structure BatchExecState where
  cache : PyDict SentimentOutcome
  calls : List String
  tasks : List TaskPhase
deriving Repr

/-- The cache key `analyze_sentiment` uses for a text. -/
def taskKey (md5Hex : String → String) (text : String) : String :=
  getCacheKey md5Hex text "sentiment"

/-- Activate task `i` once: a not-yet-started task performs its cache
lookup (finishing at once on a hit); a task that missed performs the
remote call, writes through on a caching result, and finishes.  Activating
a finished or out-of-range task does nothing. -/
def stepTask (md5Hex : String → String) (remote : String → RemoteResult)
    (texts : List String) (st : BatchExecState) (i : Nat) : BatchExecState :=
  match st.tasks[i]?, texts[i]? with
  | some .notStarted, some t =>
    match dictLookup (taskKey md5Hex t) st.cache with
    | some v => { st with tasks := st.tasks.set i (.done v) }
    | none => { st with tasks := st.tasks.set i .missed }
  | some .missed, some t =>
    match remote t with
    | .cachingResult o =>
      { cache := dictInsert (taskKey md5Hex t) o (manageCacheSize ollamaMaxCacheSize st.cache),
        calls := st.calls ++ [t],
        tasks := st.tasks.set i (.done o) }
    | .nonCachingResult o =>
      { st with calls := st.calls ++ [t], tasks := st.tasks.set i (.done o) }
  | _, _ => st

/-- Run the pool under an explicit interleaving: each schedule entry
activates that task once. -/
def runSchedule (md5Hex : String → String) (remote : String → RemoteResult)
    (texts : List String) (schedule : List Nat) (cache0 : PyDict SentimentOutcome) :
    BatchExecState :=
  schedule.foldl (stepTask md5Hex remote texts)
    ⟨cache0, [], List.replicate texts.length .notStarted⟩

/-- The serialized interleaving: each task runs to completion (both
phases) before the next starts. -/
def seqSchedule (n : Nat) : List Nat :=
  (List.range n).flatMap (fun i => [i, i])

/-- C4 (counterexample): "exactly one remote model call is made for that
text" fails under the thread pool.  With the duplicate text at two
positions, the interleaving in which both workers perform their cache
lookups before either completes its call-and-write makes two remote calls
for the text (schedule `[0, 1, 0, 1]`), even though both calls succeed
and cache their results. -/
theorem c4_counterexample_two_remote_calls :
    ((runSchedule id (fun _ => .cachingResult (SentimentLabel.POSITIVE, mkRat 9 10))
        ["same text", "same text"] [0, 1, 0, 1] []).calls.count "same text") = 2 := by
  decide

/-- Inserting under a different key does not change a lookup. -/
theorem dictLookup_dictInsert_ne {α : Type} (k k' : String) (v : α) (d : PyDict α)
    (hne : ¬ (k' = k)) : dictLookup k (dictInsert k' v d) = dictLookup k d := by
  unfold dictInsert
  split
  · unfold dictLookup
    have hmap : ∀ d : PyDict α,
        (d.map (fun p => if p.1 == k' then (k', v) else p)).find? (fun p => p.1 == k)
          = d.find? (fun p => p.1 == k) := by
      intro d
      induction d with
      | nil => rfl
      | cons p rest ih =>
        simp only [List.map_cons]
        by_cases hp : p.1 == k'
        · rw [if_pos hp, List.find?_cons_of_neg, List.find?_cons_of_neg]
          · exact ih
          · simp only [beq_iff_eq] at hp ⊢
            rw [hp]
            exact hne
          · simpa using hne
        · rw [if_neg hp]
          by_cases hk : (p.1 == k) = true
          · rw [List.find?_cons_of_pos, List.find?_cons_of_pos]
            · exact hk
            · exact hk
          · rw [List.find?_cons_of_neg, List.find?_cons_of_neg]
            · exact ih
            · exact hk
            · exact hk
    rw [hmap]
  · unfold dictLookup
    have happ : ∀ d : PyDict α,
        (d ++ [(k', v)]).find? (fun p => p.1 == k) = d.find? (fun p => p.1 == k) := by
      intro d
      induction d with
      | nil =>
        rw [List.nil_append, List.find?_cons_of_neg]
        simpa using hne
      | cons p rest ih =>
        rw [List.cons_append]
        by_cases hk : (p.1 == k) = true
        · rw [List.find?_cons_of_pos, List.find?_cons_of_pos]
          · exact hk
          · exact hk
        · rw [List.find?_cons_of_neg, List.find?_cons_of_neg]
          · exact ih
          · exact hk
          · exact hk
    rw [happ]

/-- One task run to completion: both activations in sequence. -/
def runTask (md5Hex : String → String) (remote : String → RemoteResult)
    (texts : List String) (st : BatchExecState) (i : Nat) : BatchExecState :=
  stepTask md5Hex remote texts (stepTask md5Hex remote texts st i) i

/-- The serialized schedule is the fold of completed task runs. -/
theorem runSchedule_seq_eq_foldl (md5Hex : String → String) (remote : String → RemoteResult)
    (texts : List String) (cache0 : PyDict SentimentOutcome) (n : Nat) :
    runSchedule md5Hex remote texts (seqSchedule n) cache0
      = (List.range n).foldl (runTask md5Hex remote texts)
          ⟨cache0, [], List.replicate texts.length .notStarted⟩ := by
  unfold runSchedule seqSchedule
  generalize (⟨cache0, [], List.replicate texts.length .notStarted⟩ : BatchExecState) = st
  induction (List.range n) generalizing st with
  | nil => rfl
  | cons x xs ih =>
    rw [List.flatMap_cons, List.foldl_append, List.foldl_cons]
    exact ih _

/-- What a completed task run does, given its task is fresh and its text
exists: finish immediately with the cached outcome on a hit, otherwise
call the model and finish (caching if the body's path caches). -/
theorem runTask_char (md5Hex : String → String) (remote : String → RemoteResult)
    (texts : List String) (st : BatchExecState) (i : Nat) (t : String)
    (htask : st.tasks[i]? = some .notStarted) (htext : texts[i]? = some t) :
    runTask md5Hex remote texts st i =
      match dictLookup (taskKey md5Hex t) st.cache with
      | some v => { st with tasks := st.tasks.set i (.done v) }
      | none =>
        match remote t with
        | .cachingResult o =>
          { cache := dictInsert (taskKey md5Hex t) o
              (manageCacheSize ollamaMaxCacheSize st.cache),
            calls := st.calls ++ [t],
            tasks := st.tasks.set i (.done o) }
        | .nonCachingResult o =>
          { st with calls := st.calls ++ [t], tasks := st.tasks.set i (.done o) } := by
  have hlen : i < st.tasks.length := by
    by_contra h
    rw [List.getElem?_eq_none (Nat.le_of_not_lt h)] at htask
    exact absurd htask (by simp)
  unfold runTask
  cases hl : dictLookup (taskKey md5Hex t) st.cache with
  | some v =>
    have hstep1 : stepTask md5Hex remote texts st i
        = { st with tasks := st.tasks.set i (.done v) } := by
      unfold stepTask
      simp only [htask, htext, hl]
    rw [hstep1]
    have hdone : (st.tasks.set i (.done v))[i]? = some (.done v) := by
      simp [List.getElem?_set_self', hlen]
    unfold stepTask
    simp only [hdone, htext]
  | none =>
    have hstep1 : stepTask md5Hex remote texts st i
        = { st with tasks := st.tasks.set i .missed } := by
      unfold stepTask
      simp only [htask, htext, hl]
    rw [hstep1]
    have hmissed : (st.tasks.set i .missed)[i]? = some .missed := by
      simp [List.getElem?_set_self', hlen]
    unfold stepTask
    simp only [hmissed, htext]
    cases hr : remote t with
    | cachingResult o => simp [hr, List.set_set]
    | nonCachingResult o => simp [hr, List.set_set]

/-- Below the bound, `_manage_cache_size` leaves the cache alone. -/
theorem manageCacheSize_eq_of_lt {α : Type} (m : Nat) (d : PyDict α)
    (h : d.length < m) : manageCacheSize m d = d := by
  unfold manageCacheSize
  rw [if_neg]
  omega

/-- Setting one position leaves the other positions unchanged. -/
theorem listSet_getElem?_ne {α : Type} (l : List α) (a : α) (q p : Nat)
    (h : ¬ (q = p)) : (l.set q a)[p]? = l[p]? := by
  induction l generalizing q p with
  | nil => rfl
  | cons x xs ih =>
    cases q with
    | zero =>
      cases p with
      | zero => exact absurd rfl h
      | succ p => simp [List.set_cons_zero]
    | succ q =>
      cases p with
      | zero => simp [List.set_cons_succ]
      | succ p =>
        simp only [List.set_cons_succ, List.getElem?_cons_succ]
        exact ih q p (fun hh => h (by rw [hh]))

/-- Setting an in-range position makes it readable. -/
theorem listSet_getElem?_self {α : Type} (l : List α) (a : α) (q : Nat)
    (h : q < l.length) : (l.set q a)[q]? = some a := by
  simp [List.getElem?_set_self', List.getElem?_eq_getElem h]

/-- Every in-range position of a replicated list holds the element. -/
theorem replicate_getElem?_lt {α : Type} (n p : Nat) (a : α) (h : p < n) :
    (List.replicate n a)[p]? = some a := by
  rw [List.getElem?_eq_getElem (by simpa using h)]
  simp

/-- Invariant after the first `m` tasks of the serialized schedule have
run, for a batch whose duplicated text `t` first occurs at position `i`
and recurs at position `j`: tasks at and beyond `m` are untouched, the
cache has grown by at most one entry per completed task, and the
duplicated text's key is uncached with no call before task `i` runs, and
cached by exactly one call afterwards, with finished duplicate positions
holding the identical cached outcome. -/
def c4Inv (md5Hex : String → String) (texts : List String) (t : String)
    (o : SentimentOutcome) (i j : Nat) (cache0 : PyDict SentimentOutcome)
    (m : Nat) (st : BatchExecState) : Prop :=
  st.tasks.length = texts.length
  ∧ st.cache.length ≤ cache0.length + m
  ∧ (∀ p, m ≤ p → p < texts.length → st.tasks[p]? = some .notStarted)
  ∧ (m ≤ i → dictLookup (taskKey md5Hex t) st.cache = none ∧ st.calls.count t = 0)
  ∧ (i < m → dictLookup (taskKey md5Hex t) st.cache = some o
      ∧ st.calls.count t = 1 ∧ st.tasks[i]? = some (.done o))
  ∧ (j < m → st.tasks[j]? = some (.done o))

/-- Running one more task of the serialized schedule preserves the
invariant. -/
theorem c4_inv_step (md5Hex : String → String) (remote : String → RemoteResult)
    (texts : List String) (cache0 : PyDict SentimentOutcome)
    (t : String) (o : SentimentOutcome) (i j : Nat)
    (hij : i < j)
    (hti : texts[i]? = some t) (htj : texts[j]? = some t)
    (hfirst : ∀ k tk, k < i → texts[k]? = some tk → ¬ (tk = t))
    (hnocol : ∀ s : String, ¬ (s = t) → ¬ (taskKey md5Hex s = taskKey md5Hex t))
    (hremote : remote t = .cachingResult o)
    (hsmall : cache0.length + texts.length ≤ ollamaMaxCacheSize)
    (m : Nat) (hm : m < texts.length) (st : BatchExecState)
    (hinv : c4Inv md5Hex texts t o i j cache0 m st) :
    c4Inv md5Hex texts t o i j cache0 (m + 1) (runTask md5Hex remote texts st m) := by
  obtain ⟨hlen, hclen, hfresh, hA, hB, hC⟩ := hinv
  obtain ⟨tm, htm⟩ : ∃ tm, texts[m]? = some tm := ⟨texts[m], List.getElem?_eq_getElem hm⟩
  have htaskm : st.tasks[m]? = some .notStarted := hfresh m (Nat.le_refl m) hm
  have hmtasks : m < st.tasks.length := by rw [hlen]; exact hm
  have hmanage : manageCacheSize ollamaMaxCacheSize st.cache = st.cache :=
    manageCacheSize_eq_of_lt _ _ (by unfold ollamaMaxCacheSize at hsmall ⊢; omega)
  rw [runTask_char md5Hex remote texts st m tm htaskm htm]
  by_cases heq : tm = t
  · subst heq
    by_cases him : i < m
    · obtain ⟨hlook, hcount, htaski⟩ := hB him
      simp only [hlook]
      refine ⟨?_, ?_, ?_, ?_, ?_, ?_⟩
      · show (st.tasks.set m (.done o)).length = texts.length
        rw [List.length_set]
        exact hlen
      · show st.cache.length ≤ cache0.length + (m + 1)
        omega
      · intro p hp1 hp2
        show (st.tasks.set m (.done o))[p]? = some .notStarted
        rw [listSet_getElem?_ne _ _ _ _ (by omega)]
        exact hfresh p (by omega) hp2
      · intro h
        omega
      · intro _
        refine ⟨hlook, hcount, ?_⟩
        show (st.tasks.set m (.done o))[i]? = some (.done o)
        rw [listSet_getElem?_ne _ _ _ _ (by omega)]
        exact htaski
      · intro hj
        by_cases hjm : j = m
        · subst hjm
          show (st.tasks.set j (.done o))[j]? = some (.done o)
          exact listSet_getElem?_self _ _ _ hmtasks
        · show (st.tasks.set m (.done o))[j]? = some (.done o)
          rw [listSet_getElem?_ne _ _ _ _ (by omega)]
          exact hC (by omega)
    · have hmi : m = i := by
        by_contra h
        exact hfirst m tm (by omega) htm rfl
      obtain ⟨hlook, hcnt0⟩ := hA (by omega)
      simp only [hlook, hremote]
      refine ⟨?_, ?_, ?_, ?_, ?_, ?_⟩
      · show (st.tasks.set m (.done o)).length = texts.length
        rw [List.length_set]
        exact hlen
      · show (dictInsert (taskKey md5Hex tm) o
            (manageCacheSize ollamaMaxCacheSize st.cache)).length ≤ cache0.length + (m + 1)
        rw [hmanage, dictInsert_length_of_lookup_none _ _ _ hlook]
        omega
      · intro p hp1 hp2
        show (st.tasks.set m (.done o))[p]? = some .notStarted
        rw [listSet_getElem?_ne _ _ _ _ (by omega)]
        exact hfresh p (by omega) hp2
      · intro h
        omega
      · intro _
        refine ⟨?_, ?_, ?_⟩
        · show dictLookup (taskKey md5Hex tm)
              (dictInsert (taskKey md5Hex tm) o
                (manageCacheSize ollamaMaxCacheSize st.cache)) = some o
          rw [hmanage]
          exact dictLookup_dictInsert_self _ _ _
        · show (st.calls ++ [tm]).count tm = 1
          rw [List.count_append]
          simp [hcnt0]
        · show (st.tasks.set m (.done o))[i]? = some (.done o)
          rw [← hmi]
          exact listSet_getElem?_self _ _ _ hmtasks
      · intro hj
        omega
  · have hkey : ¬ (taskKey md5Hex tm = taskKey md5Hex t) := hnocol tm heq
    have him : ¬ (m = i) := by
      intro h
      rw [← h] at hti
      rw [htm] at hti
      exact heq (Option.some.inj hti)
    have hjm : ¬ (m = j) := by
      intro h
      rw [← h] at htj
      rw [htm] at htj
      exact heq (Option.some.inj htj)
    cases hl : dictLookup (taskKey md5Hex tm) st.cache with
    | some v =>
      simp only [hl]
      refine ⟨?_, ?_, ?_, ?_, ?_, ?_⟩
      · show (st.tasks.set m (.done v)).length = texts.length
        rw [List.length_set]
        exact hlen
      · show st.cache.length ≤ cache0.length + (m + 1)
        omega
      · intro p hp1 hp2
        show (st.tasks.set m (.done v))[p]? = some .notStarted
        rw [listSet_getElem?_ne _ _ _ _ (by omega)]
        exact hfresh p (by omega) hp2
      · intro h
        exact hA (by omega)
      · intro h
        obtain ⟨hs, hc1, hti'⟩ := hB (by omega)
        refine ⟨hs, hc1, ?_⟩
        show (st.tasks.set m (.done v))[i]? = some (.done o)
        rw [listSet_getElem?_ne _ _ _ _ him]
        exact hti'
      · intro hj
        show (st.tasks.set m (.done v))[j]? = some (.done o)
        rw [listSet_getElem?_ne _ _ _ _ hjm]
        exact hC (by omega)
    | none =>
      simp only [hl]
      cases hr : remote tm with
      | cachingResult o2 =>
        refine ⟨?_, ?_, ?_, ?_, ?_, ?_⟩
        · show (st.tasks.set m (.done o2)).length = texts.length
          rw [List.length_set]
          exact hlen
        · show (dictInsert (taskKey md5Hex tm) o2
              (manageCacheSize ollamaMaxCacheSize st.cache)).length ≤ cache0.length + (m + 1)
          rw [hmanage]
          have := dictInsert_length_le (taskKey md5Hex tm) o2 st.cache
          omega
        · intro p hp1 hp2
          show (st.tasks.set m (.done o2))[p]? = some .notStarted
          rw [listSet_getElem?_ne _ _ _ _ (by omega)]
          exact hfresh p (by omega) hp2
        · intro h
          obtain ⟨hn, hc0⟩ := hA (by omega)
          refine ⟨?_, ?_⟩
          · show dictLookup (taskKey md5Hex t)
                (dictInsert (taskKey md5Hex tm) o2
                  (manageCacheSize ollamaMaxCacheSize st.cache)) = none
            rw [hmanage]
            exact dictLookup_none_insert_ne _ _ _ _ hkey hn
          · show (st.calls ++ [tm]).count t = 0
            rw [List.count_append]
            simp [List.count_cons, heq, hc0]
        · intro h
          obtain ⟨hs, hc1, hti'⟩ := hB (by omega)
          refine ⟨?_, ?_, ?_⟩
          · show dictLookup (taskKey md5Hex t)
                (dictInsert (taskKey md5Hex tm) o2
                  (manageCacheSize ollamaMaxCacheSize st.cache)) = some o
            rw [hmanage, dictLookup_dictInsert_ne _ _ _ _ hkey]
            exact hs
          · show (st.calls ++ [tm]).count t = 1
            rw [List.count_append]
            simp [List.count_cons, heq, hc1]
          · show (st.tasks.set m (.done o2))[i]? = some (.done o)
            rw [listSet_getElem?_ne _ _ _ _ him]
            exact hti'
        · intro hj
          show (st.tasks.set m (.done o2))[j]? = some (.done o)
          rw [listSet_getElem?_ne _ _ _ _ hjm]
          exact hC (by omega)
      | nonCachingResult o2 =>
        refine ⟨?_, ?_, ?_, ?_, ?_, ?_⟩
        · show (st.tasks.set m (.done o2)).length = texts.length
          rw [List.length_set]
          exact hlen
        · show st.cache.length ≤ cache0.length + (m + 1)
          omega
        · intro p hp1 hp2
          show (st.tasks.set m (.done o2))[p]? = some .notStarted
          rw [listSet_getElem?_ne _ _ _ _ (by omega)]
          exact hfresh p (by omega) hp2
        · intro h
          obtain ⟨hn, hc0⟩ := hA (by omega)
          refine ⟨hn, ?_⟩
          show (st.calls ++ [tm]).count t = 0
          rw [List.count_append]
          simp [List.count_cons, heq, hc0]
        · intro h
          obtain ⟨hs, hc1, hti'⟩ := hB (by omega)
          refine ⟨hs, ?_, ?_⟩
          · show (st.calls ++ [tm]).count t = 1
            rw [List.count_append]
            simp [List.count_cons, heq, hc1]
          · show (st.tasks.set m (.done o2))[i]? = some (.done o)
            rw [listSet_getElem?_ne _ _ _ _ him]
            exact hti'
        · intro hj
          show (st.tasks.set m (.done o2))[j]? = some (.done o)
          rw [listSet_getElem?_ne _ _ _ _ hjm]
          exact hC (by omega)

/-- Under the serialized schedule the invariant holds after every prefix
of the batch. -/
theorem c4_inv_fold (md5Hex : String → String) (remote : String → RemoteResult)
    (texts : List String) (cache0 : PyDict SentimentOutcome)
    (t : String) (o : SentimentOutcome) (i j : Nat)
    (hij : i < j)
    (hti : texts[i]? = some t) (htj : texts[j]? = some t)
    (hfirst : ∀ k tk, k < i → texts[k]? = some tk → ¬ (tk = t))
    (hnocol : ∀ s : String, ¬ (s = t) → ¬ (taskKey md5Hex s = taskKey md5Hex t))
    (hmiss0 : dictLookup (taskKey md5Hex t) cache0 = none)
    (hremote : remote t = .cachingResult o)
    (hsmall : cache0.length + texts.length ≤ ollamaMaxCacheSize) :
    ∀ m, m ≤ texts.length →
      c4Inv md5Hex texts t o i j cache0 m
        ((List.range m).foldl (runTask md5Hex remote texts)
          ⟨cache0, [], List.replicate texts.length .notStarted⟩) := by
  intro m
  induction m with
  | zero =>
    intro _
    refine ⟨?_, ?_, ?_, ?_, ?_, ?_⟩
    · show (List.replicate texts.length TaskPhase.notStarted).length = texts.length
      simp
    · show cache0.length ≤ cache0.length + 0
      omega
    · intro p _ hp2
      show (List.replicate texts.length TaskPhase.notStarted)[p]? = some .notStarted
      exact replicate_getElem?_lt _ _ _ hp2
    · intro _
      exact ⟨hmiss0, by simp⟩
    · intro h
      exact absurd h (Nat.not_lt_zero i)
    · intro h
      exact absurd h (Nat.not_lt_zero j)
  | succ m ih =>
    intro hm1
    rw [List.range_succ, List.foldl_append, List.foldl_cons, List.foldl_nil]
    exact c4_inv_step md5Hex remote texts cache0 t o i j hij hti htj hfirst hnocol
      hremote hsmall m (by omega) _ (ih (by omega))

/-- C4 (amended): the cache key is a function of the text alone, so the
duplicate positions share one key; and under the serialized schedule
(each worker's `analyze_sentiment` finishes before the next begins —
the guarantee the claim intends, which the thread pool does not enforce)
the duplicated text `t`, first occurring at position `i` and again at
position `j`, triggers exactly one remote model call, and both positions
finish with the identical cached outcome. -/
theorem c4_duplicate_one_call_serialized
    (md5Hex : String → String) (remote : String → RemoteResult)
    (texts : List String) (cache0 : PyDict SentimentOutcome)
    (t : String) (o : SentimentOutcome) (i j : Nat)
    (hij : i < j) (hjn : j < texts.length)
    (hti : texts[i]? = some t) (htj : texts[j]? = some t)
    (hfirst : ∀ k tk, k < i → texts[k]? = some tk → ¬ (tk = t))
    (hnocol : ∀ s : String, ¬ (s = t) → ¬ (taskKey md5Hex s = taskKey md5Hex t))
    (hmiss0 : dictLookup (taskKey md5Hex t) cache0 = none)
    (hremote : remote t = .cachingResult o)
    (hsmall : cache0.length + texts.length ≤ ollamaMaxCacheSize) :
    taskKey md5Hex (texts[i]?.getD "") = taskKey md5Hex (texts[j]?.getD "")
    ∧ (runSchedule md5Hex remote texts (seqSchedule texts.length) cache0).calls.count t = 1
    ∧ (runSchedule md5Hex remote texts (seqSchedule texts.length) cache0).tasks[i]?
        = some (.done o)
    ∧ (runSchedule md5Hex remote texts (seqSchedule texts.length) cache0).tasks[j]?
        = some (.done o) := by
  have hfin := c4_inv_fold md5Hex remote texts cache0 t o i j hij hti htj hfirst
    hnocol hmiss0 hremote hsmall texts.length (Nat.le_refl _)
  rw [runSchedule_seq_eq_foldl]
  obtain ⟨_, _, _, _, hBfin, hCfin⟩ := hfin
  obtain ⟨_, hc1, htaski⟩ := hBfin (by omega)
  exact ⟨by rw [hti, htj], hc1, htaski, hCfin hjn⟩

/-- Appending on the left is cancellable for strings. -/
theorem string_append_left_cancel (p s u : String) (h : p ++ s = p ++ u) : s = u := by
  have hd := congrArg String.data h
  rw [String.data_append, String.data_append] at hd
  exact String.ext (List.append_cancel_left hd)

/-- C4 witness: a six-text batch with "dup" at positions 2 and 4, an
empty cache and a model that always returns the caching outcome
(Positive, 0.9): the serialized run makes exactly one remote call for
"dup" and both duplicate positions finish with that cached outcome. -/
theorem c4_duplicate_one_call_serialized_witness :
    taskKey id "dup" = taskKey id "dup"
    ∧ (runSchedule id (fun _ => .cachingResult (SentimentLabel.POSITIVE, mkRat 9 10))
        ["alpha", "beta", "dup", "gamma", "dup", "delta"] (seqSchedule 6)
        []).calls.count "dup" = 1
    ∧ (runSchedule id (fun _ => .cachingResult (SentimentLabel.POSITIVE, mkRat 9 10))
        ["alpha", "beta", "dup", "gamma", "dup", "delta"] (seqSchedule 6)
        []).tasks[2]? = some (.done (SentimentLabel.POSITIVE, mkRat 9 10))
    ∧ (runSchedule id (fun _ => .cachingResult (SentimentLabel.POSITIVE, mkRat 9 10))
        ["alpha", "beta", "dup", "gamma", "dup", "delta"] (seqSchedule 6)
        []).tasks[4]? = some (.done (SentimentLabel.POSITIVE, mkRat 9 10)) :=
  c4_duplicate_one_call_serialized id
    (fun _ => .cachingResult (SentimentLabel.POSITIVE, mkRat 9 10))
    ["alpha", "beta", "dup", "gamma", "dup", "delta"] [] "dup"
    (SentimentLabel.POSITIVE, mkRat 9 10) 2 4
    (by decide) (by decide) rfl rfl
    (by
      intro k tk hk htk
      have hk2 : k = 0 ∨ k = 1 := by omega
      rcases hk2 with h | h <;> subst h <;>
        simp only [List.getElem?_cons_zero, List.getElem?_cons_succ,
          Option.some.injEq] at htk <;>
        subst htk <;> decide)
    (fun s hs hk => hs (string_append_left_cancel ("sentiment" ++ "_") s "dup" hk))
    rfl rfl (by decide)
